import Mathlib

/-!
Verification development for the PoetryGame server (src/server.js).

The state of the server is embedded shallowly: JavaScript objects become
Lean structures, the mutable module-level registries (rooms, localCache,
reconnectTimeouts, choiceTimeouts) become fields of a `Server` record, and
every socket/timer handler of the source becomes a pure state-transforming
function.  The JavaScript runtime timer queue is modelled by the field
`scheduled`: `setTimeout` appends a `TimerId` with its deadline,
`clearTimeout` erases it, and a timer can only fire while its id is in the
list.  Messages broadcast into a room log are modelled by constructor tags
(their text is irrelevant to every property proved here).
-/

namespace PoetryGame

/-- Answer texts are lists of characters (JS strings indexed by code unit). -/
abbrev Str := List Char

/-- A concrete sample of the characters matched by the JS regex class
for whitespace and punctuation used in `normalizeSentence` and in the
input validation of `handlePlayerInput`.  Both places in the source use
the same class, which is the only fact the proofs rely on. -/
def punctChars : List Char :=
  ['.', ',', ';', ':', '!', '?', '-', '(', ')', '"',
   '，', '。', '！', '？', '、', '；', '：', '（', '）', '《', '》', '【', '】', '…']

/-- Character class of the JS regex for whitespace or punctuation. -/
def isStrippable (c : Char) : Bool := c.isWhitespace || punctChars.contains c

/-- Source `normalizeSentence`: remove every whitespace or punctuation char. -/
def normalizeSentence (s : Str) : Str := s.filter (fun c => !isStrippable c)

/-- JS `String.prototype.trim`: drop leading and trailing whitespace. -/
def trimText (s : Str) : Str :=
  ((s.dropWhile Char.isWhitespace).reverse.dropWhile Char.isWhitespace).reverse

/-- Source `illegalCharsRegex.test`: some char is whitespace or punctuation. -/
def hasIllegalChar (s : Str) : Bool := s.any isStrippable

/-- Boolean membership, mirroring JS `Array.prototype.includes`. -/
def memb {α : Type} [DecidableEq α] (a : α) (l : List α) : Bool :=
  l.any (fun x => decide (x = a))

@[simp] theorem memb_iff {α : Type} [DecidableEq α] (a : α) (l : List α) :
    memb a l = true ↔ a ∈ l := by
  induction l with
  | nil => simp [memb]
  | cons x t ih =>
    simp only [memb, List.any_cons] at ih ⊢
    aesop

/-- Association-list lookup, mirroring JS object property access. -/
def alookup {α : Type} : List (String × α) → String → Option α
  | [], _ => none
  | (k', v) :: t, k => if k' = k then some v else alookup t k

/-- Whether a key is present (JS truthiness of a property holding a record). -/
def hasKey {α : Type} (l : List (String × α)) (k : String) : Bool :=
  (alookup l k).isSome

/-- JS object property assignment: overwrite the existing key in place,
or append a new key at the end (JS property insertion order). -/
def aset {α : Type} : List (String × α) → String → α → List (String × α)
  | [], k, v => [(k, v)]
  | (k', v') :: t, k, v =>
      if k' = k then (k, v) :: t else (k', v') :: aset t k v

/-- JS `delete obj[k]`. -/
def aerase {α : Type} (l : List (String × α)) (k : String) :
    List (String × α) :=
  l.filter (fun p => decide (p.1 ≠ k))

@[simp] theorem alookup_aerase {α : Type} (l : List (String × α))
    (k k' : String) :
    alookup (aerase l k) k' = if k' = k then none else alookup l k' := by
  induction l with
  | nil => simp [aerase, alookup]
  | cons p t ih =>
    obtain ⟨a, b⟩ := p
    by_cases h1 : a = k <;> by_cases h2 : a = k' <;> by_cases h3 : k' = k <;>
      simp_all [aerase, alookup]

theorem alookup_append {α : Type} (l₁ l₂ : List (String × α)) (k : String) :
    alookup (l₁ ++ l₂) k =
      match alookup l₁ k with
      | some v => some v
      | none => alookup l₂ k := by
  induction l₁ with
  | nil => simp [alookup]
  | cons p t ih =>
    obtain ⟨a, b⟩ := p
    by_cases h : a = k <;> simp [alookup, h, ih]

@[simp] theorem alookup_aset {α : Type} (l : List (String × α)) (k : String)
    (v : α) (k' : String) :
    alookup (aset l k v) k' = if k' = k then some v else alookup l k' := by
  induction l with
  | nil =>
    by_cases h : k' = k
    · simp [aset, alookup, h]
    · simp only [aset, alookup, if_neg h]
      rw [if_neg (fun hx => h (Eq.symm hx))]
  | cons p t ih =>
    obtain ⟨a, b⟩ := p
    by_cases h1 : a = k <;> by_cases h2 : a = k' <;> by_cases h3 : k' = k <;>
      simp_all [aset, alookup]

theorem hasKey_aset {α : Type} (l : List (String × α)) (k : String) (v : α)
    (k' : String) :
    hasKey (aset l k v) k' = if k' = k then true else hasKey l k' := by
  by_cases h : k' = k <;> simp [hasKey, alookup_aset, h]

theorem hasKey_aerase {α : Type} (l : List (String × α)) (k k' : String) :
    hasKey (aerase l k) k' = if k' = k then false else hasKey l k' := by
  by_cases h : k' = k <;> simp [hasKey, alookup_aerase, h]

/-- A player record (source: object stored in `room.players`).  The socket
handle is not represented: no property proved here observes it. -/
structure Player where
  nickname : String
  score : Nat
  online : Bool
  disconnectTime : Option Nat
  deriving Repr, DecidableEq

/-- A queued submission (source: element of `room.validationQueue`). -/
structure Submission where
  answer : Str
  nickname : String
  deriving Repr, DecidableEq

/-- The active vote (source: `room.currentVote`).  `votes` maps a voter
nickname to the raw vote string received; `timeouts` lists the nicknames
whose per-voter timer handle is still present in the `timeouts` object. -/
structure VotingSession where
  submission : Submission
  votes : List (String × String)
  voters : List String
  timeouts : List String
  endTime : Nat
  deriving Repr, DecidableEq

/-- The pending character choice (source: entry of `choiceTimeouts`). -/
structure ChoiceEntry where
  winnerNickname : String
  answer : Str
  endTime : Nat
  deriving Repr, DecidableEq

/-- Tags for the messages the source broadcasts into a room log; the
concrete text of each message is irrelevant to the proved properties. -/
inductive Msg where
  | welcome | left | waitingReconnect | reconnected | dropped
  | withdrew | voteAborted
  | validating | cacheHit | voteStart
  | voted | voteTimeoutAuto | disconnectAuto
  | autoPass | votePassed | voteFailed
  | choiceExpired | newRound
  deriving Repr, DecidableEq

/-- A room (source: value of `rooms[roomId]`). -/
structure Room where
  id : String
  name : String
  players : List (String × Player)
  isPermanent : Bool
  currentStartChar : Char
  usedSentences : List Str
  validationQueue : List Submission
  currentVote : Option VotingSession
  messages : List Msg
  deriving Repr, DecidableEq

/-- Identity of a runtime timer, carrying the values the JS callback
closes over: the room, and for vote/reconnect timers the nickname, for the
choice timer the submitted answer. -/
inductive TimerId where
  | vote (roomId nickname : String)
  | choice (roomId : String) (answer : Str)
  | reconnect (roomId nickname : String)
  deriving Repr, DecidableEq

/-- The whole mutable state of the server process: the module-level
registries of the source plus the runtime timer queue (`scheduled`) and a
clock (`now`) standing for `Date.now()`. -/
structure Server where
  rooms : List (String × Room)
  localCache : List Str
  reconnectTimeouts : List String
  choiceTimeouts : List (String × ChoiceEntry)
  scheduled : List (TimerId × Nat)
  now : Nat
  deriving Repr, DecidableEq

def Server.getRoom (st : Server) (roomId : String) : Option Room :=
  alookup st.rooms roomId

def Server.setRoom (st : Server) (roomId : String) (r : Room) : Server :=
  {st with rooms := aset st.rooms roomId r}

def Server.delRoom (st : Server) (roomId : String) : Server :=
  {st with rooms := aerase st.rooms roomId}

/-- Source `broadcastMessage` body acting on one room: append the entry
and truncate the log to the most recent 50. -/
def Room.pushMsg (r : Room) (m : Msg) : Room :=
  let ms := r.messages ++ [m]
  {r with messages := if ms.length > 50 then ms.tail else ms}

/-- Source `broadcastMessage`: a missing room makes it a no-op. -/
def Server.broadcastMessage (st : Server) (roomId : String) (m : Msg) :
    Server :=
  match st.getRoom roomId with
  | none => st
  | some r => st.setRoom roomId (r.pushMsg m)

/-- `clearTimeout`: remove the timer from the runtime queue. -/
def Server.clearTimer (st : Server) (tid : TimerId) : Server :=
  {st with scheduled := st.scheduled.eraseP (fun e => decide (e.1 = tid))}

/-- `setTimeout`: add a timer with its absolute deadline. -/
def Server.scheduleTimer (st : Server) (tid : TimerId) (deadline : Nat) :
    Server :=
  {st with scheduled := st.scheduled ++ [(tid, deadline)]}

def Server.timerScheduled (st : Server) (tid : TimerId) : Bool :=
  st.scheduled.any (fun e => decide (e.1 = tid))

/-- `Object.values(currentVote.timeouts).forEach(clearTimeout)`. -/
def Server.clearVoteTimers (st : Server) (roomId : String)
    (ns : List String) : Server :=
  ns.foldl (fun s n => s.clearTimer (.vote roomId n)) st

/-- JS truthiness of a vote value (`''` is the only falsy string). -/
def truthy (v : String) : Bool := decide (v ≠ "")

/-- Source `room.currentVote.votes[nickname]` used as a Boolean. -/
def VotingSession.hasVoted (cv : VotingSession) (n : String) : Bool :=
  match alookup cv.votes n with
  | some v => truthy v
  | none => false

/-- Source: `Object.values(voteData).filter(v => v === 'valid').length`. -/
def VotingSession.validVotes (cv : VotingSession) : Nat :=
  (cv.votes.filter (fun p => decide (p.2 = "valid"))).length

/-- Source `startNewRound` (lines 837-847): set the new start character
and broadcast; the chooser id only affects the message text. -/
def startNewRound (st : Server) (roomId : String) (newChar : Char)
    (_chooser : String) : Server :=
  match st.getRoom roomId with
  | none => st
  | some room =>
    (st.setRoom roomId
      {room with currentStartChar := newChar}).broadcastMessage roomId
      .newRound

/-- Source `removePlayerFromRoom` (lines 302-315): delete the player
record and the reconnect-timer handle (without `clearTimeout`!), then
destroy the room when it became empty and is not permanent.  Returns
whether the room was destroyed. -/
def removePlayerFromRoom (st : Server) (roomId nickname : String) :
    Server × Bool :=
  match st.getRoom roomId with
  | none => (st, false)
  | some room =>
    if hasKey room.players nickname then
      let room' := {room with players := aerase room.players nickname}
      let st := st.setRoom roomId room'
      let st := {st with
        reconnectTimeouts :=
          st.reconnectTimeouts.filter (fun n => decide (n ≠ nickname))}
      if room'.players = [] ∧ room'.isPermanent = false then
        (st.delRoom roomId, true)
      else (st, false)
    else (st, false)

/-- Source `handleCorrectAnswer` (lines 680-717).  When the winner is
still a room member: score + 1, clear the whole queue, push the
normalized answer onto the recent-use ring (evicting the oldest past 50),
and open the choice session with a fresh 15000 ms timer (overwriting any
existing `choiceTimeouts` entry without cancelling its timer).  When the
winner vanished: clear the queue; the source then calls
`processValidationQueue`, which is a no-op on the now-empty queue
(`processValidationQueue_emptyQueue` below), so the call is elided here. -/
def handleCorrectAnswer (st : Server) (roomId : String) (sub : Submission) :
    Server :=
  match st.getRoom roomId with
  | none => st
  | some room =>
    match alookup room.players sub.nickname with
    | none => st.setRoom roomId {room with validationQueue := []}
    | some winner =>
      let room := {room with
        players := aset room.players sub.nickname
          {winner with score := winner.score + 1},
        validationQueue := []}
      let used := room.usedSentences ++ [normalizeSentence sub.answer]
      let room := {room with
        usedSentences := if used.length > 50 then used.tail else used}
      let st := st.setRoom roomId room
      let endT := st.now + 15000
      let st := {st with
        choiceTimeouts :=
          aset st.choiceTimeouts roomId ⟨winner.nickname, sub.answer, endT⟩}
      st.scheduleTimer (.choice roomId sub.answer) endT

/-- Source `startPlayerVote` voter snapshot: the online players minus the
submitter, in room-roster order. -/
def eligibleVoters (room : Room) (sub : Submission) : List String :=
  (((room.players.map Prod.snd).filter (fun p => p.online)).filter
    (fun p => decide (p.nickname ≠ sub.nickname))).map Player.nickname

/-- Source `startPlayerVote` (lines 719-745): voter set is the online
players minus the submitter, snapshotted now; one 15000 ms timer per
voter; empty vote map. -/
def startPlayerVote (st : Server) (roomId : String) (sub : Submission) :
    Server :=
  match st.getRoom roomId with
  | none => st
  | some room =>
    let voters := eligibleVoters room sub
    let endT := st.now + 15000
    let st := {st with
      scheduled :=
        st.scheduled ++ voters.map (fun n => (TimerId.vote roomId n, endT))}
    st.setRoom roomId
      {room with currentVote := some ⟨sub, [], voters, voters, endT⟩}

/-- Source `processValidationQueue` (lines 661-678): no-op when a vote is
active or the queue is empty; otherwise the head either hits the cache
(pop and resolve as accepted) or goes to a player vote. -/
def processValidationQueue (st : Server) (roomId : String) : Server :=
  match st.getRoom roomId with
  | none => st
  | some room =>
    if room.currentVote.isSome then st
    else
      match room.validationQueue with
      | [] => st
      | sub :: rest =>
        if memb (normalizeSentence sub.answer) st.localCache then
          let room := ((room.pushMsg .validating).pushMsg .cacheHit)
          let room := {room with validationQueue := rest}
          handleCorrectAnswer (st.setRoom roomId room) roomId sub
        else
          let room := ((room.pushMsg .validating).pushMsg .voteStart)
          startPlayerVote (st.setRoom roomId room) roomId sub

/-- Source `handleVoteEnd` (lines 782-823): cancel every per-voter timer
still held, then resolve.  Zero voters: auto-pass.  Otherwise pass iff
`validVotes >= floor(totalVoters/2) + 1`; on pass the normalized answer
joins the cache when absent and the submission is accepted; on fail the
head is dropped and queue processing resumes. -/
def handleVoteEnd (st : Server) (roomId : String) : Server :=
  match st.getRoom roomId with
  | none => st
  | some room =>
    match room.currentVote with
    | none => st
    | some cv =>
      let st := st.clearVoteTimers roomId cv.timeouts
      if cv.voters.length = 0 then
        let room := {room with
          currentVote := none, validationQueue := room.validationQueue.tail}
        let room := room.pushMsg .autoPass
        let st := st.setRoom roomId room
        let nk := normalizeSentence cv.submission.answer
        let st :=
          if memb nk st.localCache then st
          else {st with localCache := st.localCache ++ [nk]}
        handleCorrectAnswer st roomId cv.submission
      else
        let threshold := cv.voters.length / 2 + 1
        let room := {room with
          currentVote := none, validationQueue := room.validationQueue.tail}
        if cv.validVotes ≥ threshold then
          let room := room.pushMsg .votePassed
          let st := st.setRoom roomId room
          let nk := normalizeSentence cv.submission.answer
          let st :=
            if memb nk st.localCache then st
            else {st with localCache := st.localCache ++ [nk]}
          handleCorrectAnswer st roomId cv.submission
        else
          let room := room.pushMsg .voteFailed
          let st := st.setRoom roomId room
          processValidationQueue st roomId

/-- Source `handleVoteTimeout` (lines 747-759): the timer callback body;
records an automatic `'valid'` vote unless one is already recorded, and
concludes the vote when every voter is accounted for. -/
def handleVoteTimeout (st : Server) (roomId nickname : String) : Server :=
  match st.getRoom roomId with
  | none => st
  | some room =>
    match room.currentVote with
    | none => st
    | some cv =>
      if cv.hasVoted nickname then st
      else
        let cv' := {cv with
          votes := aset cv.votes nickname "valid",
          timeouts := cv.timeouts.filter (fun x => decide (x ≠ nickname))}
        let room := ({room with currentVote := some cv'}).pushMsg
          .voteTimeoutAuto
        let st := st.setRoom roomId room
        if cv'.votes.length ≥ cv'.voters.length then handleVoteEnd st roomId
        else st

/-- Source `handlePlayerVote` (lines 761-780): a manual vote by an
eligible voter who has not yet voted cancels their timer, records the raw
vote value, and concludes when every voter is accounted for. -/
def handlePlayerVote (st : Server) (roomId nickname : String) (v : String) :
    Server :=
  match st.getRoom roomId with
  | none => st
  | some room =>
    match room.currentVote with
    | none => st
    | some cv =>
      if nickname = "" ∨ hasKey room.players nickname = false then st
      else if memb nickname cv.voters ∧ cv.hasVoted nickname = false then
        let st := st.clearTimer (.vote roomId nickname)
        let cv' := {cv with
          votes := aset cv.votes nickname v,
          timeouts := cv.timeouts.filter (fun x => decide (x ≠ nickname))}
        let room := ({room with currentVote := some cv'}).pushMsg .voted
        let st := st.setRoom roomId room
        if cv'.votes.length ≥ cv'.voters.length then handleVoteEnd st roomId
        else st
      else st

/-- Private notices sent to the submitter by `handlePlayerInput`; the
empty-after-trim rejection in the source returns without sending one. -/
inductive InputReply where
  | alreadyQueued | illegalChars | recentlyUsed | missingStartChar
  deriving Repr, DecidableEq

/-- Source `handlePlayerInput` (lines 630-659): the five-step validation
chain, in source order, then enqueue and invoke queue processing.  The
second component is the private notice sent to the submitter, if any. -/
def handlePlayerInput (st : Server) (roomId nickname : String)
    (answer : Str) : Server × Option InputReply :=
  match st.getRoom roomId with
  | none => (st, none)
  | some room =>
    if nickname = "" ∨ hasKey room.players nickname = false then (st, none)
    else if room.validationQueue.any
        (fun s => decide (s.nickname = nickname)) then
      (st, some .alreadyQueued)
    else
      let t := trimText answer
      if t = [] then (st, none)
      else if hasIllegalChar t then (st, some .illegalChars)
      else if memb (normalizeSentence t) room.usedSentences then
        (st, some .recentlyUsed)
      else if memb room.currentStartChar t = false then
        (st, some .missingStartChar)
      else
        let st := st.setRoom roomId
          {room with validationQueue := room.validationQueue ++ [⟨t, nickname⟩]}
        (processValidationQueue st roomId, none)

/-- Source `withdrawAnswer` handler (lines 398-421): filter out the
nickname's queued entries; when something was removed and the player is
still present, abort the vote if it was on this player's submission
(cancelling every outstanding per-voter timer) and resume processing.
The queue filtering itself happens unconditionally in the source. -/
def withdrawAnswer (st : Server) (roomId nickname : String) : Server :=
  if roomId = "" ∨ nickname = "" then st
  else
    match st.getRoom roomId with
    | none => st
    | some room =>
      let isVotingOnThis :=
        match room.currentVote with
        | some cv => decide (cv.submission.nickname = nickname)
        | none => false
      let q' := room.validationQueue.filter
        (fun s => decide (s.nickname ≠ nickname))
      if q'.length < room.validationQueue.length ∧
          hasKey room.players nickname = true then
        let room := ({room with validationQueue := q'}).pushMsg .withdrew
        let (st, room) :=
          if isVotingOnThis then
            let st :=
              match room.currentVote with
              | some cv => st.clearVoteTimers roomId cv.timeouts
              | none => st
            (st, ({room with currentVote := none}).pushMsg .voteAborted)
          else (st, room)
        processValidationQueue (st.setRoom roomId room) roomId
      else st.setRoom roomId {room with validationQueue := q'}

/-- The auto-vote block at the bottom of `handlePlayerDisconnect`
(lines 483-492), acting on the vote captured before any removal: an
eligible voter who has not voted has their timer cancelled and a `'valid'`
vote recorded, and the vote concludes when every voter is accounted for.
The room update applies only when the room still exists in the registry,
matching the source mutating a captured object. -/
def disconnectVoteBlock (st : Server) (roomId nickname : String)
    (captured : Option VotingSession) : Server :=
  match captured with
  | none => st
  | some cv =>
    if memb nickname cv.voters ∧ cv.hasVoted nickname = false then
      let st := st.clearTimer (.vote roomId nickname)
      let cv' := {cv with
        votes := aset cv.votes nickname "valid",
        timeouts := cv.timeouts.filter (fun x => decide (x ≠ nickname))}
      let st :=
        match st.getRoom roomId with
        | some r =>
          st.setRoom roomId
            (({r with currentVote := some cv'}).pushMsg .disconnectAuto)
        | none => st
      if cv'.votes.length ≥ cv'.voters.length then handleVoteEnd st roomId
      else st
    else st

/-- Source `handlePlayerDisconnect` (lines 431-499).  Graceful leave:
permanent room marks the player offline, ephemeral room removes the
record (possibly destroying the room).  Ungraceful: mark offline; in a
permanent room the handler RETURNS EARLY (before the vote auto-record
block); in an ephemeral room it schedules the 30000 ms reconnect grace
timer. -/
def handlePlayerDisconnect (st : Server) (roomId nickname : String)
    (graceful : Bool) : Server :=
  if roomId = "" ∨ nickname = "" then st
  else
    match st.getRoom roomId with
    | none => st
    | some room =>
      match alookup room.players nickname with
      | none => st
      | some player =>
        if graceful ∧ room.isPermanent then
          let player := {player with
            online := false, disconnectTime := some st.now}
          let room := ({room with
            players := aset room.players nickname player}).pushMsg .left
          let st := st.setRoom roomId room
          disconnectVoteBlock st roomId nickname room.currentVote
        else if graceful then
          let st := st.setRoom roomId (room.pushMsg .left)
          let (st, _) := removePlayerFromRoom st roomId nickname
          disconnectVoteBlock st roomId nickname room.currentVote
        else
          let player := {player with
            online := false, disconnectTime := some st.now}
          let room := ({room with
            players := aset room.players nickname player}).pushMsg
            .waitingReconnect
          let st := st.setRoom roomId room
          if room.isPermanent then st
          else
            let st := {st with
              reconnectTimeouts :=
                if memb nickname st.reconnectTimeouts then
                  st.reconnectTimeouts
                else st.reconnectTimeouts ++ [nickname]}
            let st := st.scheduleTimer (.reconnect roomId nickname)
              (st.now + 30000)
            disconnectVoteBlock st roomId nickname room.currentVote

/-- Model of JS `String.prototype.toLowerCase` used by the join check:
lower-case the characters of the string. -/
def lowerStr (s : String) : List Char := s.data.map Char.toLower

/-- Replies emitted by the join/reconnect paths. -/
inductive JoinReply where
  | joinSuccess | joinError | reconnectError
  deriving Repr, DecidableEq

/-- Whether a runtime timer entry is the reconnect grace timer of the
given nickname (the handle map is keyed by nickname alone). -/
def isReconFor (n : String) (e : TimerId × Nat) : Bool :=
  match e.1 with
  | .reconnect _ m => decide (m = n)
  | _ => false

/-- Source `reconnectPlayer` (lines 537-580): succeeds only against an
exact-nickname record that is currently offline; cancels and drops the
grace timer, restores the online flag, clears the disconnect timestamp;
when a vote is active and this player is an un-voted eligible voter, the
old per-voter timer is cancelled and a fresh full 15000 ms one starts. -/
def reconnectPlayer (st : Server) (roomId nickname : String) :
    Server × JoinReply :=
  match st.getRoom roomId with
  | none => (st, .reconnectError)
  | some room =>
    match alookup room.players nickname with
    | none => (st, .reconnectError)
    | some p =>
      if p.online then (st, .reconnectError)
      else
        let st := {st with
          scheduled := st.scheduled.eraseP (isReconFor nickname),
          reconnectTimeouts :=
            st.reconnectTimeouts.filter (fun n => decide (n ≠ nickname))}
        let p' := {p with online := true, disconnectTime := none}
        let room := ({room with
          players := aset room.players nickname p'}).pushMsg .reconnected
        let needsRestart : Bool :=
          match room.currentVote with
          | some cv => memb nickname cv.voters && !cv.hasVoted nickname
          | none => false
        if needsRestart then
          let room :=
            match room.currentVote with
            | some cv =>
              {room with currentVote := some {cv with
                timeouts :=
                  if memb nickname cv.timeouts then cv.timeouts
                  else cv.timeouts ++ [nickname]}}
            | none => room
          let st := (st.clearTimer (.vote roomId nickname)).scheduleTimer
            (.vote roomId nickname) (st.now + 15000)
          (st.setRoom roomId room, .joinSuccess)
        else (st.setRoom roomId room, .joinSuccess)

/-- Source `joinRoom` (lines 501-535): nickname length must be in [1,10];
reject when an online player holds the nickname case-insensitively; when
an exact-key record exists, route to reconnect; else create a brand-new
player at score 0, online. -/
def joinRoom (st : Server) (roomId nickname : String) :
    Server × JoinReply :=
  match st.getRoom roomId with
  | none => (st, .joinError)
  | some room =>
    if nickname = "" ∨ nickname.length > 10 ∨ nickname.length < 1 then
      (st, .joinError)
    else if (room.players.map Prod.snd).any
        (fun p => decide (lowerStr p.nickname = lowerStr nickname) && p.online)
      then (st, .joinError)
    else if hasKey room.players nickname then
      reconnectPlayer st roomId nickname
    else
      let room := ({room with
        players :=
          aset room.players nickname ⟨nickname, 0, true, none⟩}).pushMsg
        .welcome
      (st.setRoom roomId room, .joinSuccess)

/-- Source `createRoom` handler (lines 352-372): reject an occupied id,
else allocate the room with the default start character `'月'` and admit
the creator through `joinRoom`.  The random id generation for an omitted
room name is not modelled; the caller always supplies the id. -/
def createRoom (st : Server) (roomId nickname : String) :
    Server × JoinReply :=
  if hasKey st.rooms roomId then (st, .joinError)
  else
    let room : Room :=
      ⟨roomId, roomId, [], false, '月', [], [], none, []⟩
    joinRoom (st.setRoom roomId room) roomId nickname

/-- Source `handleCharChoice` (lines 825-835): only the recorded winner
may choose; cancels the choice timer, drops the entry and starts the new
round. -/
def handleCharChoice (st : Server) (roomId nickname : String) (c : Char) :
    Server :=
  match st.getRoom roomId, alookup st.choiceTimeouts roomId with
  | some _, some entry =>
    if nickname = entry.winnerNickname then
      let st := st.clearTimer (.choice roomId entry.answer)
      let st := {st with choiceTimeouts := aerase st.choiceTimeouts roomId}
      startNewRound st roomId c nickname
    else st
  | _, _ => st

/-- Firing of a per-voter vote timer: only possible while scheduled;
consumes the timer and runs `handleVoteTimeout`. -/
def fireVoteTimer (st : Server) (roomId nickname : String) : Server :=
  if st.timerScheduled (.vote roomId nickname) then
    handleVoteTimeout (st.clearTimer (.vote roomId nickname)) roomId nickname
  else st

/-- Firing of the choice-window timer (callback at lines 706-714): when a
`choiceTimeouts` entry for the room still exists, drop it, broadcast, and
start a new round with the first normalized character of the captured
answer (default `'天'`), attributed to the system. -/
def fireChoiceTimer (st : Server) (roomId : String) (answer : Str) :
    Server :=
  if st.timerScheduled (.choice roomId answer) then
    let st := st.clearTimer (.choice roomId answer)
    match alookup st.choiceTimeouts roomId with
    | some _ =>
      let st := {st with choiceTimeouts := aerase st.choiceTimeouts roomId}
      let st := st.broadcastMessage roomId .choiceExpired
      startNewRound st roomId ((normalizeSentence answer).headD '天') "系统"
    | none => st
  else st

/-- Firing of the 30 s reconnect grace timer (callback at lines 462-478):
when the room and the player still exist and the player is still offline,
remove the record; when the room survives, broadcast the drop notice. -/
def fireReconnectTimer (st : Server) (roomId nickname : String) : Server :=
  if st.timerScheduled (.reconnect roomId nickname) then
    let st := st.clearTimer (.reconnect roomId nickname)
    match st.getRoom roomId with
    | none => st
    | some room =>
      match alookup room.players nickname with
      | none => st
      | some p =>
        if p.online then st
        else
          let (st, destroyed) := removePlayerFromRoom st roomId nickname
          if destroyed then st else st.broadcastMessage roomId .dropped
  else st

/-- Admin `POST /rooms/delete` (lines 223-244): unconditionally drop the
room from the registry; no timer owned by the room is cancelled. -/
def adminDeleteRoom (st : Server) (roomId : String) : Server :=
  if hasKey st.rooms roomId then st.delRoom roomId else st

/-- Admin `POST /rooms/players/delete` (lines 272-298). -/
def adminKickPlayer (st : Server) (roomId nickname : String) : Server :=
  match st.getRoom roomId with
  | none => st
  | some room =>
    if hasKey room.players nickname then
      (removePlayerFromRoom st roomId nickname).1
    else st

/-- Admin `POST /rooms/toggle-permanent` (lines 212-221). -/
def adminTogglePermanent (st : Server) (roomId : String) : Server :=
  match st.getRoom roomId with
  | none => st
  | some room => st.setRoom roomId {room with isPermanent := !room.isPermanent}

/-- Lexicographic order on answer texts by character code, standing for
the default JS `Array.prototype.sort` comparison on strings. -/
def strLe : Str → Str → Bool
  | [], _ => true
  | _ :: _, [] => false
  | a :: as, b :: bs =>
    if a.val < b.val then true
    else if b.val < a.val then false
    else strLe as bs

/-- `localCache.sort()`. -/
def sortCache (l : List Str) : List Str :=
  List.insertionSort (fun a b => strLe a b = true) l

/-- Admin `POST /cache/add` (lines 246-257): insert the normalized phrase
only when non-empty and not already present, then sort. -/
def adminCacheAdd (st : Server) (s : Str) : Server :=
  let n := normalizeSentence s
  if n ≠ [] ∧ memb n st.localCache = false then
    {st with localCache := sortCache (st.localCache ++ [n])}
  else st

/-- Admin `POST /cache/delete` (lines 259-270): remove the first
occurrence of the normalized phrase when present. -/
def adminCacheRemove (st : Server) (s : Str) : Server :=
  let n := normalizeSentence s
  if memb n st.localCache then {st with localCache := st.localCache.erase n}
  else st

/-- Every inbound event the server core reacts to: client socket events,
admin API calls, and the firing of the three timer kinds.  Timer events
are guarded by the runtime queue (`scheduled`), which over-approximates
real schedules only in that a timer may fire before its deadline. -/
inductive Event where
  | createRoom (roomId nickname : String)
  | joinRoom (roomId nickname : String)
  | reconnect (roomId nickname : String)
  | submitAnswer (roomId nickname : String) (answer : Str)
  | withdrawAnswer (roomId nickname : String)
  | submitVote (roomId nickname : String) (v : String)
  | chooseNewChar (roomId nickname : String) (c : Char)
  | disconnect (roomId nickname : String) (graceful : Bool)
  | fireVoteTimer (roomId nickname : String)
  | fireChoiceTimer (roomId : String) (answer : Str)
  | fireReconnectTimer (roomId nickname : String)
  | adminDeleteRoom (roomId : String)
  | adminKickPlayer (roomId nickname : String)
  | adminTogglePermanent (roomId : String)
  | adminCacheAdd (s : Str)
  | adminCacheRemove (s : Str)
  | advanceTime (d : Nat)
  deriving Repr, DecidableEq

/-- One reaction of the single-threaded server to an event. -/
def step (st : Server) (e : Event) : Server :=
  match e with
  | .createRoom r n => (createRoom st r n).1
  | .joinRoom r n =>
    if hasKey st.rooms r then (joinRoom st r n).1 else st
  | .reconnect r n => (reconnectPlayer st r n).1
  | .submitAnswer r n a => (handlePlayerInput st r n a).1
  | .withdrawAnswer r n => withdrawAnswer st r n
  | .submitVote r n v => handlePlayerVote st r n v
  | .chooseNewChar r n c => handleCharChoice st r n c
  | .disconnect r n g => handlePlayerDisconnect st r n g
  | .fireVoteTimer r n => fireVoteTimer st r n
  | .fireChoiceTimer r a => fireChoiceTimer st r a
  | .fireReconnectTimer r n => fireReconnectTimer st r n
  | .adminDeleteRoom r => adminDeleteRoom st r
  | .adminKickPlayer r n => adminKickPlayer st r n
  | .adminTogglePermanent r => adminTogglePermanent st r
  | .adminCacheAdd s => adminCacheAdd st s
  | .adminCacheRemove s => adminCacheRemove st s
  | .advanceTime d => {st with now := st.now + d}

/-- The server state reached after a sequence of events. -/
def run (st : Server) (evs : List Event) : Server := evs.foldl step st

/-- The state at process start with no persisted data. -/
def init : Server := ⟨[], [], [], [], [], 0⟩

@[simp] theorem getRoom_setRoom (st : Server) (k : String) (r : Room)
    (k' : String) :
    (st.setRoom k r).getRoom k' = if k' = k then some r else st.getRoom k' := by
  simp [Server.getRoom, Server.setRoom, alookup_aset]

@[simp] theorem getRoom_delRoom (st : Server) (k k' : String) :
    (st.delRoom k).getRoom k' = if k' = k then none else st.getRoom k' := by
  simp [Server.getRoom, Server.delRoom, alookup_aerase]

@[simp] theorem getRoom_mk (rooms : List (String × Room))
    (lc : List Str) (rt : List String) (ct : List (String × ChoiceEntry))
    (sc : List (TimerId × Nat)) (n : Nat) (k : String) :
    Server.getRoom ⟨rooms, lc, rt, ct, sc, n⟩ k = alookup rooms k := rfl

@[simp] theorem setRoom_rooms (st : Server) (k : String) (r : Room) :
    (st.setRoom k r).rooms = aset st.rooms k r := rfl

@[simp] theorem delRoom_rooms (st : Server) (k : String) :
    (st.delRoom k).rooms = aerase st.rooms k := rfl

@[simp] theorem pushMsg_players (r : Room) (m : Msg) :
    (r.pushMsg m).players = r.players := rfl

@[simp] theorem pushMsg_validationQueue (r : Room) (m : Msg) :
    (r.pushMsg m).validationQueue = r.validationQueue := rfl

@[simp] theorem pushMsg_currentVote (r : Room) (m : Msg) :
    (r.pushMsg m).currentVote = r.currentVote := rfl

@[simp] theorem pushMsg_usedSentences (r : Room) (m : Msg) :
    (r.pushMsg m).usedSentences = r.usedSentences := rfl

@[simp] theorem pushMsg_isPermanent (r : Room) (m : Msg) :
    (r.pushMsg m).isPermanent = r.isPermanent := rfl

@[simp] theorem pushMsg_currentStartChar (r : Room) (m : Msg) :
    (r.pushMsg m).currentStartChar = r.currentStartChar := rfl

@[simp] theorem setRoom_localCache (st : Server) (k : String) (r : Room) :
    (st.setRoom k r).localCache = st.localCache := rfl

@[simp] theorem setRoom_choiceTimeouts (st : Server) (k : String) (r : Room) :
    (st.setRoom k r).choiceTimeouts = st.choiceTimeouts := rfl

@[simp] theorem setRoom_scheduled (st : Server) (k : String) (r : Room) :
    (st.setRoom k r).scheduled = st.scheduled := rfl

@[simp] theorem setRoom_reconnectTimeouts (st : Server) (k : String)
    (r : Room) : (st.setRoom k r).reconnectTimeouts = st.reconnectTimeouts :=
  rfl

@[simp] theorem setRoom_now (st : Server) (k : String) (r : Room) :
    (st.setRoom k r).now = st.now := rfl

@[simp] theorem delRoom_localCache (st : Server) (k : String) :
    (st.delRoom k).localCache = st.localCache := rfl

@[simp] theorem delRoom_choiceTimeouts (st : Server) (k : String) :
    (st.delRoom k).choiceTimeouts = st.choiceTimeouts := rfl

@[simp] theorem delRoom_scheduled (st : Server) (k : String) :
    (st.delRoom k).scheduled = st.scheduled := rfl

@[simp] theorem delRoom_now (st : Server) (k : String) :
    (st.delRoom k).now = st.now := rfl

@[simp] theorem clearTimer_rooms (st : Server) (tid : TimerId) :
    (st.clearTimer tid).rooms = st.rooms := rfl

@[simp] theorem clearTimer_getRoom (st : Server) (tid : TimerId)
    (k : String) : (st.clearTimer tid).getRoom k = st.getRoom k := rfl

@[simp] theorem clearTimer_localCache (st : Server) (tid : TimerId) :
    (st.clearTimer tid).localCache = st.localCache := rfl

@[simp] theorem clearTimer_choiceTimeouts (st : Server) (tid : TimerId) :
    (st.clearTimer tid).choiceTimeouts = st.choiceTimeouts := rfl

@[simp] theorem clearTimer_now (st : Server) (tid : TimerId) :
    (st.clearTimer tid).now = st.now := rfl

@[simp] theorem clearTimer_scheduled (st : Server) (tid : TimerId) :
    (st.clearTimer tid).scheduled =
      st.scheduled.eraseP (fun e => decide (e.1 = tid)) := rfl

@[simp] theorem scheduleTimer_scheduled (st : Server) (tid : TimerId)
    (d : Nat) :
    (st.scheduleTimer tid d).scheduled = st.scheduled ++ [(tid, d)] := rfl

@[simp] theorem scheduleTimer_rooms (st : Server) (tid : TimerId) (d : Nat) :
    (st.scheduleTimer tid d).rooms = st.rooms := rfl

@[simp] theorem scheduleTimer_getRoom (st : Server) (tid : TimerId) (d : Nat)
    (k : String) : (st.scheduleTimer tid d).getRoom k = st.getRoom k := rfl

@[simp] theorem scheduleTimer_localCache (st : Server) (tid : TimerId)
    (d : Nat) : (st.scheduleTimer tid d).localCache = st.localCache := rfl

@[simp] theorem scheduleTimer_choiceTimeouts (st : Server) (tid : TimerId)
    (d : Nat) :
    (st.scheduleTimer tid d).choiceTimeouts = st.choiceTimeouts := rfl

@[simp] theorem scheduleTimer_now (st : Server) (tid : TimerId) (d : Nat) :
    (st.scheduleTimer tid d).now = st.now := rfl

theorem clearVoteTimers_rooms (st : Server) (roomId : String)
    (ns : List String) :
    (st.clearVoteTimers roomId ns).rooms = st.rooms := by
  induction ns generalizing st with
  | nil => rfl
  | cons n t ih => simpa [Server.clearVoteTimers] using ih _

@[simp] theorem clearVoteTimers_getRoom (st : Server) (roomId : String)
    (ns : List String) (k : String) :
    (st.clearVoteTimers roomId ns).getRoom k = st.getRoom k := by
  simp [Server.getRoom, clearVoteTimers_rooms]

@[simp] theorem clearVoteTimers_localCache (st : Server) (roomId : String)
    (ns : List String) :
    (st.clearVoteTimers roomId ns).localCache = st.localCache := by
  induction ns generalizing st with
  | nil => rfl
  | cons n t ih => simpa [Server.clearVoteTimers] using ih _

@[simp] theorem clearVoteTimers_choiceTimeouts (st : Server)
    (roomId : String) (ns : List String) :
    (st.clearVoteTimers roomId ns).choiceTimeouts = st.choiceTimeouts := by
  induction ns generalizing st with
  | nil => rfl
  | cons n t ih => simpa [Server.clearVoteTimers] using ih _

@[simp] theorem clearVoteTimers_now (st : Server) (roomId : String)
    (ns : List String) : (st.clearVoteTimers roomId ns).now = st.now := by
  induction ns generalizing st with
  | nil => rfl
  | cons n t ih => simpa [Server.clearVoteTimers] using ih _

theorem broadcastMessage_getRoom (st : Server) (rid : String) (m : Msg)
    (k : String) :
    (st.broadcastMessage rid m).getRoom k =
      match st.getRoom rid with
      | none => st.getRoom k
      | some r => if k = rid then some (r.pushMsg m) else st.getRoom k := by
  unfold Server.broadcastMessage
  cases h : st.getRoom rid with
  | none => simp
  | some r => simp [getRoom_setRoom]

@[simp] theorem broadcastMessage_localCache (st : Server) (rid : String)
    (m : Msg) : (st.broadcastMessage rid m).localCache = st.localCache := by
  unfold Server.broadcastMessage
  cases st.getRoom rid <;> rfl

@[simp] theorem broadcastMessage_choiceTimeouts (st : Server) (rid : String)
    (m : Msg) :
    (st.broadcastMessage rid m).choiceTimeouts = st.choiceTimeouts := by
  unfold Server.broadcastMessage
  cases st.getRoom rid <;> rfl

@[simp] theorem broadcastMessage_scheduled (st : Server) (rid : String)
    (m : Msg) : (st.broadcastMessage rid m).scheduled = st.scheduled := by
  unfold Server.broadcastMessage
  cases st.getRoom rid <;> rfl

@[simp] theorem broadcastMessage_now (st : Server) (rid : String) (m : Msg) :
    (st.broadcastMessage rid m).now = st.now := by
  unfold Server.broadcastMessage
  cases st.getRoom rid <;> rfl

/-- `processValidationQueue` does nothing on an empty queue; this justifies
eliding the trailing call in the vanished-winner branch of
`handleCorrectAnswer`, whose source text performs exactly this call. -/
theorem processValidationQueue_emptyQueue (st : Server) (roomId : String)
    (room : Room) (hr : st.getRoom roomId = some room)
    (hq : room.validationQueue = []) :
    processValidationQueue st roomId = st := by
  unfold processValidationQueue
  rw [hr]
  by_cases hv : room.currentVote.isSome <;> simp [hv, hq]

/-- Behaviour of the submission-intake chain claimed by C2, relative to a
room the submitter is a member of.  `c1`-`c5` are the five rejection
conditions in source order; each holds the state fixed, the first four
reject, the empty-trim rejection (`c2`) is silent, and passing all five
appends the trimmed answer and invokes queue processing. -/
def SubmissionIntakeSpec (st : Server) (roomId nickname : String)
    (answer : Str) (room : Room) : Prop :=
  let res := handlePlayerInput st roomId nickname answer
  let t := trimText answer
  let c1 := room.validationQueue.any (fun s => decide (s.nickname = nickname))
  let c2 : Bool := decide (t = [])
  let c3 := hasIllegalChar t
  let c4 := memb (normalizeSentence t) room.usedSentences
  let c5 := !(memb room.currentStartChar t)
  (c1 = true → res = (st, some .alreadyQueued)) ∧
  (c1 = false → c2 = true → res = (st, none)) ∧
  (c1 = false → c2 = false → c3 = true → res = (st, some .illegalChars)) ∧
  (c1 = false → c2 = false → c3 = false → c4 = true →
    res = (st, some .recentlyUsed)) ∧
  (c1 = false → c2 = false → c3 = false → c4 = false → c5 = true →
    res = (st, some .missingStartChar)) ∧
  (c1 = false → c2 = false → c3 = false → c4 = false → c5 = false →
    res = (processValidationQueue
      (st.setRoom roomId
        {room with
          validationQueue := room.validationQueue ++ [⟨t, nickname⟩]})
      roomId, none))

/-- C2 (amended): for a submitter present in the room, the submission is
enqueued (and queue processing invoked) iff none of the five rejection
conditions hold, checked in source order; every rejection leaves the
server state unchanged; the four non-empty rejections are reported
privately to the submitter only, while the empty-after-trim rejection is
silent. -/
theorem c2_submission_intake (st : Server) (roomId nickname : String)
    (answer : Str) (room : Room)
    (hr : st.getRoom roomId = some room)
    (hn : nickname ≠ "")
    (hp : hasKey room.players nickname = true) :
    SubmissionIntakeSpec st roomId nickname answer room := by
  unfold SubmissionIntakeSpec handlePlayerInput
  rw [hr]
  simp only [hn, hp, false_or, or_self, if_neg, Bool.false_eq_true,
    not_false_iff]
  refine ⟨?_, ?_, ?_, ?_, ?_, ?_⟩ <;> intro h1
  · simp [h1]
  all_goals intro h2
  · simp [h1, of_decide_eq_true h2]
  all_goals intro h3
  · simp [h1, of_decide_eq_false h2, h3]
  all_goals intro h4
  · simp [h1, of_decide_eq_false h2, h3, h4]
  all_goals intro h5
  · simp only [Bool.not_eq_true'] at h5
    simp [h1, of_decide_eq_false h2, h3, h4, h5]
  · simp only [Bool.not_eq_false'] at h5
    simp [h1, of_decide_eq_false h2, h3, h4, h5]

/-- The concrete room and server used as counterexample input for C2. -/
def c2Room : Room :=
  ⟨"R", "R", [("A", ⟨"A", 0, true, none⟩)], false, '月', [], [], none, []⟩

def c2St : Server := ⟨[("R", c2Room)], [], [], [], [], 0⟩

/-- C2 counterexample: a whitespace-only submission from a present player
is rejected — the state is unchanged, nothing is enqueued — yet no
private notice is produced, contradicting the claim that every rejection
is reported privately to the submitter. -/
theorem c2_counterexample :
    handlePlayerInput c2St "R" "A" [' ', ' '] = (c2St, none) := by decide

/-- C2 witness: the amended theorem applied at a concrete input. -/
theorem c2_witness : SubmissionIntakeSpec c2St "R" "A" ['月', '圆'] c2Room :=
  c2_submission_intake c2St "R" "A" ['月', '圆'] c2Room rfl
    (by decide) (by decide)

/-- Behaviour of `joinRoom` claimed by C9: the offline-record lookup is
by exact case-sensitive key, so a join whose nickname differs only in
letter case from an offline record creates a brand-new online player at
score 0 while the old offline record keeps its score, untouched. -/
def CaseSensitiveJoinSpec (st : Server) (roomId nickname other : String)
    (oldp : Player) : Prop :=
  (joinRoom st roomId nickname).2 = .joinSuccess ∧
  ∃ room', (joinRoom st roomId nickname).1.getRoom roomId = some room' ∧
    alookup room'.players nickname = some ⟨nickname, 0, true, none⟩ ∧
    alookup room'.players other = some oldp

/-- C9: a join request whose nickname matches an offline record only up
to letter case (and is not held case-insensitively by any online player)
does not route to reconnect: a new player is created and the offline
record remains. -/
theorem c9_case_sensitive_join (st : Server) (roomId nickname other : String)
    (room : Room) (oldp : Player)
    (hr : st.getRoom roomId = some room)
    (hn : nickname ≠ "")
    (hlen1 : nickname.length ≤ 10)
    (hlen2 : 1 ≤ nickname.length)
    (honline : ((room.players.map Prod.snd).any
      (fun p => decide (lowerStr p.nickname = lowerStr nickname) &&
        p.online)) = false)
    (hexact : alookup room.players nickname = none)
    (hold : alookup room.players other = some oldp)
    (hdiff : other ≠ nickname) :
    CaseSensitiveJoinSpec st roomId nickname other oldp := by
  have h10 : ¬nickname.length > 10 := by omega
  have h01 : ¬nickname.length < 1 := by omega
  have hk : hasKey room.players nickname = false := by
    simp [hasKey, hexact]
  have hres : joinRoom st roomId nickname =
      (st.setRoom roomId
        (({room with
            players := aset room.players nickname
              ⟨nickname, 0, true, none⟩}).pushMsg .welcome),
       .joinSuccess) := by
    unfold joinRoom
    rw [hr]
    simp [hn, h10, h01, honline, hk]
  unfold CaseSensitiveJoinSpec
  rw [hres]
  refine ⟨rfl,
    ({room with
      players := aset room.players nickname
        ⟨nickname, 0, true, none⟩}).pushMsg .welcome, ?_, ?_, ?_⟩
  · rw [getRoom_setRoom]
    simp
  · simp [alookup_aset]
  · simp [alookup_aset, hdiff, hold]

/-- Concrete input for the C9 witness: room with an offline record
"alice" holding score 5; "Alice" joins. -/
def c9Room : Room :=
  ⟨"R", "R", [("alice", ⟨"alice", 5, false, none⟩)], false, '月',
   [], [], none, []⟩

def c9St : Server := ⟨[("R", c9Room)], [], [], [], [], 0⟩

/-- C9 witness: the theorem applied at the concrete input. -/
theorem c9_witness :
    CaseSensitiveJoinSpec c9St "R" "Alice" "alice" ⟨"alice", 5, false, none⟩ :=
  c9_case_sensitive_join c9St "R" "Alice" "alice" c9Room
    ⟨"alice", 5, false, none⟩ rfl (by decide) (by decide) (by decide)
    (by decide) (by decide) (by decide) (by decide)

/-- Behaviour of `handleCorrectAnswer` claimed by C3.  With the submitter
still in the room: exactly their score rises by 1, the whole queue is
emptied, the normalized answer is appended to the recent-use ring with
FIFO eviction past 50, and a choice session with a 15000 ms window opens
for them.  With the submitter gone: the queue is cleared and nothing else
changes. -/
def AcceptedAnswerSpec (st : Server) (roomId : String) (sub : Submission)
    (room : Room) : Prop :=
  let st' := handleCorrectAnswer st roomId sub
  (∀ w, alookup room.players sub.nickname = some w →
    ∃ room', st'.getRoom roomId = some room' ∧
      alookup room'.players sub.nickname =
        some {w with score := w.score + 1} ∧
      (∀ n, n ≠ sub.nickname →
        alookup room'.players n = alookup room.players n) ∧
      room'.validationQueue = [] ∧
      room'.usedSentences =
        (let u := room.usedSentences ++ [normalizeSentence sub.answer]
         if u.length > 50 then u.tail else u) ∧
      alookup st'.choiceTimeouts roomId =
        some ⟨w.nickname, sub.answer, st.now + 15000⟩ ∧
      (TimerId.choice roomId sub.answer, st.now + 15000) ∈ st'.scheduled ∧
      st'.localCache = st.localCache) ∧
  (alookup room.players sub.nickname = none →
    ∃ room', st'.getRoom roomId = some room' ∧
      room'.validationQueue = [] ∧
      room'.players = room.players ∧
      st'.localCache = st.localCache ∧
      st'.choiceTimeouts = st.choiceTimeouts ∧
      st'.scheduled = st.scheduled)

/-- C3: resolution of an accepted submission. -/
theorem c3_accepted_answer (st : Server) (roomId : String)
    (sub : Submission) (room : Room)
    (hr : st.getRoom roomId = some room) :
    AcceptedAnswerSpec st roomId sub room := by
  unfold AcceptedAnswerSpec
  constructor
  · intro w hw
    have hres : handleCorrectAnswer st roomId sub =
        ((st.setRoom roomId
          {room with
            players := aset room.players sub.nickname
              {w with score := w.score + 1},
            validationQueue := [],
            usedSentences :=
              (let u := room.usedSentences ++ [normalizeSentence sub.answer]
               if u.length > 50 then u.tail else u)}) |> fun st1 =>
          ({st1 with
            choiceTimeouts := aset st1.choiceTimeouts roomId
              ⟨w.nickname, sub.answer, st1.now + 15000⟩}).scheduleTimer
            (.choice roomId sub.answer) (st1.now + 15000)) := by
      unfold handleCorrectAnswer
      rw [hr]
      simp only [hw]
    rw [hres]
    refine ⟨{room with
        players := aset room.players sub.nickname
          {w with score := w.score + 1},
        validationQueue := [],
        usedSentences :=
          (let u := room.usedSentences ++ [normalizeSentence sub.answer]
           if u.length > 50 then u.tail else u)},
      ?_, ?_, ?_, rfl, rfl, ?_, ?_, rfl⟩
    · simp only [scheduleTimer_getRoom]
      show (st.setRoom roomId _).getRoom roomId = _
      rw [getRoom_setRoom]
      simp
    · simp [alookup_aset]
    · intro n hn
      simp [alookup_aset, hn]
    · simp [alookup_aset]
    · simp [Server.scheduleTimer]
  · intro hw
    have hres : handleCorrectAnswer st roomId sub =
        st.setRoom roomId {room with validationQueue := []} := by
      unfold handleCorrectAnswer
      rw [hr]
      simp only [hw]
    rw [hres]
    refine ⟨{room with validationQueue := []}, ?_, rfl, rfl, rfl, rfl, rfl⟩
    rw [getRoom_setRoom]
    simp

/-- C3 witness: the theorem applied at a concrete input. -/
theorem c3_witness :
    AcceptedAnswerSpec c2St "R" ⟨['月', '一'], "A"⟩ c2Room :=
  c3_accepted_answer c2St "R" ⟨['月', '一'], "A"⟩ c2Room rfl

/-- The player record a room holds for a nickname, `none` when the room
or the record is missing. -/
def roomPlayer (st : Server) (roomId n : String) : Option Player :=
  match st.getRoom roomId with
  | some r => alookup r.players n
  | none => none

/-- Equation for `handleCorrectAnswer` when the submitter is present. -/
theorem handleCorrectAnswer_winner (st : Server) (roomId : String)
    (sub : Submission) (room : Room) (w : Player)
    (hr : st.getRoom roomId = some room)
    (hw : alookup room.players sub.nickname = some w) :
    handleCorrectAnswer st roomId sub =
      ((st.setRoom roomId
        {room with
          players := aset room.players sub.nickname
            {w with score := w.score + 1},
          validationQueue := [],
          usedSentences :=
            (let u := room.usedSentences ++ [normalizeSentence sub.answer]
             if u.length > 50 then u.tail else u)}) |> fun st1 =>
        ({st1 with
          choiceTimeouts := aset st1.choiceTimeouts roomId
            ⟨w.nickname, sub.answer, st1.now + 15000⟩}).scheduleTimer
          (.choice roomId sub.answer) (st1.now + 15000)) := by
  unfold handleCorrectAnswer
  rw [hr]
  simp only [hw]

/-- Equation for `handleCorrectAnswer` when the submitter vanished. -/
theorem handleCorrectAnswer_noWinner (st : Server) (roomId : String)
    (sub : Submission) (room : Room)
    (hr : st.getRoom roomId = some room)
    (hw : alookup room.players sub.nickname = none) :
    handleCorrectAnswer st roomId sub =
      st.setRoom roomId {room with validationQueue := []} := by
  unfold handleCorrectAnswer
  rw [hr]
  simp only [hw]

theorem handleCorrectAnswer_localCache (st : Server) (roomId : String)
    (sub : Submission) :
    (handleCorrectAnswer st roomId sub).localCache = st.localCache := by
  cases hr : st.getRoom roomId with
  | none => simp [handleCorrectAnswer, hr]
  | some room =>
    cases hw : alookup room.players sub.nickname with
    | none => rw [handleCorrectAnswer_noWinner st roomId sub room hr hw]; rfl
    | some w =>
      rw [handleCorrectAnswer_winner st roomId sub room w hr hw]; rfl

theorem handleCorrectAnswer_now (st : Server) (roomId : String)
    (sub : Submission) :
    (handleCorrectAnswer st roomId sub).now = st.now := by
  cases hr : st.getRoom roomId with
  | none => simp [handleCorrectAnswer, hr]
  | some room =>
    cases hw : alookup room.players sub.nickname with
    | none => rw [handleCorrectAnswer_noWinner st roomId sub room hr hw]; rfl
    | some w =>
      rw [handleCorrectAnswer_winner st roomId sub room w hr hw]; rfl

theorem startPlayerVote_localCache (st : Server) (roomId : String)
    (sub : Submission) :
    (startPlayerVote st roomId sub).localCache = st.localCache := by
  unfold startPlayerVote
  cases st.getRoom roomId <;> simp

theorem processValidationQueue_localCache (st : Server) (roomId : String) :
    (processValidationQueue st roomId).localCache = st.localCache := by
  unfold processValidationQueue
  cases st.getRoom roomId with
  | none => rfl
  | some room =>
    by_cases hv : room.currentVote.isSome
    · simp [hv]
    · cases hq : room.validationQueue with
      | nil => simp [hv, hq]
      | cons sub rest =>
        by_cases hc : normalizeSentence sub.answer ∈ st.localCache <;>
          simp [hv, hq, hc, handleCorrectAnswer_localCache,
            startPlayerVote_localCache]

/-- `handleCorrectAnswer` changes no player record other than the
submitter's. -/
theorem handleCorrectAnswer_roomPlayer_ne (st : Server) (roomId : String)
    (sub : Submission) (n : String) (hn : n ≠ sub.nickname) :
    roomPlayer (handleCorrectAnswer st roomId sub) roomId n =
      roomPlayer st roomId n := by
  cases hr : st.getRoom roomId with
  | none =>
    have hid : handleCorrectAnswer st roomId sub = st := by
      unfold handleCorrectAnswer
      rw [hr]
    rw [hid]
  | some room =>
    cases hw : alookup room.players sub.nickname with
    | none =>
      rw [handleCorrectAnswer_noWinner st roomId sub room hr hw]
      unfold roomPlayer
      simp [hr]
    | some w =>
      have hr' : alookup st.rooms roomId = some room := hr
      rw [handleCorrectAnswer_winner st roomId sub room w hr hw]
      unfold roomPlayer
      simp [Server.getRoom, Server.scheduleTimer, hr, hr', hn]

theorem startPlayerVote_roomPlayer (st : Server) (roomId : String)
    (sub : Submission) (n : String) :
    roomPlayer (startPlayerVote st roomId sub) roomId n =
      roomPlayer st roomId n := by
  unfold roomPlayer startPlayerVote
  cases hr : st.getRoom roomId with
  | none => simp [hr]
  | some room => simp [hr]

/-- `processValidationQueue` leaves every player record alone whose
nickname owns no queued submission. -/
theorem processValidationQueue_roomPlayer (st : Server) (roomId n : String)
    (room : Room) (hr : st.getRoom roomId = some room)
    (h : ∀ s ∈ room.validationQueue, s.nickname ≠ n) :
    roomPlayer (processValidationQueue st roomId) roomId n =
      roomPlayer st roomId n := by
  unfold processValidationQueue
  rw [hr]
  by_cases hv : room.currentVote.isSome
  · simp [hv]
  · cases hq : room.validationQueue with
    | nil => simp [hv, hq]
    | cons sub rest =>
      have hns : n ≠ sub.nickname := by
        intro he
        exact h sub (by simp [hq]) (by simp [he])
      by_cases hc : normalizeSentence sub.answer ∈ st.localCache
      · simp only [hv, hq, Bool.false_eq_true, if_false, memb_iff, hc,
          if_true, Bool.not_eq_true]
        rw [handleCorrectAnswer_roomPlayer_ne _ _ _ _ hns]
        unfold roomPlayer
        simp [hr]
      · simp only [hv, hq, Bool.false_eq_true, if_false, memb_iff, hc,
          if_true, Bool.not_eq_true]
        rw [startPlayerVote_roomPlayer]
        unfold roomPlayer
        simp [hr]

/-- Pushing onto the bounded recent-use ring keeps the pushed element. -/
theorem mem_ringPush (xs : List Str) (a : Str) :
    a ∈ (if (xs ++ [a]).length > 50 then (xs ++ [a]).tail else xs ++ [a]) :=
  by
  by_cases h : (xs ++ [a]).length > 50
  · rw [if_pos h]
    cases xs with
    | nil => simp at h
    | cons x t => simp
  · rw [if_neg h]
    simp

/-- Composite facts about the pass path of `handleVoteEnd`: adding the
normalized answer to the cache when absent, then resolving the submission
as accepted.  `stq` is the state with the vote already cleared and the
head popped; `stq'` the state after the conditional cache insertion. -/
theorem cacheAdd_accept_facts (stq stq' : Server) (roomId : String)
    (roomq : Room) (sub : Submission)
    (hrq0 : stq.getRoom roomId = some roomq)
    (hs : stq' =
      (if memb (normalizeSentence sub.answer) stq.localCache then stq
       else {stq with localCache :=
         stq.localCache ++ [normalizeSentence sub.answer]})) :
    normalizeSentence sub.answer ∈
      (handleCorrectAnswer stq' roomId sub).localCache ∧
    (normalizeSentence sub.answer ∈ stq.localCache →
      (handleCorrectAnswer stq' roomId sub).localCache = stq.localCache) ∧
    (∀ w, alookup roomq.players sub.nickname = some w →
      roomPlayer (handleCorrectAnswer stq' roomId sub) roomId sub.nickname =
        some {w with score := w.score + 1} ∧
      alookup (handleCorrectAnswer stq' roomId sub).choiceTimeouts roomId =
        some ⟨w.nickname, sub.answer, stq.now + 15000⟩ ∧
      (∀ r', (handleCorrectAnswer stq' roomId sub).getRoom roomId =
          some r' →
        r'.validationQueue = [] ∧
        normalizeSentence sub.answer ∈ r'.usedSentences)) ∧
    (alookup roomq.players sub.nickname = none →
      ∀ r', (handleCorrectAnswer stq' roomId sub).getRoom roomId =
          some r' →
        r'.validationQueue = []) := by
  have hr0 : alookup stq.rooms roomId = some roomq := hrq0
  have hrq : stq'.getRoom roomId = some roomq := by
    by_cases hc : memb (normalizeSentence sub.answer) stq.localCache <;>
      simp [hs, hc, hrq0, hr0]
  have hcache : stq'.localCache =
      (if memb (normalizeSentence sub.answer) stq.localCache
       then stq.localCache
       else stq.localCache ++ [normalizeSentence sub.answer]) := by
    by_cases hc : memb (normalizeSentence sub.answer) stq.localCache <;>
      simp [hs, hc]
  have hnow : stq'.now = stq.now := by
    by_cases hc : memb (normalizeSentence sub.answer) stq.localCache <;>
      simp [hs, hc]
  refine ⟨?_, ?_, ?_, ?_⟩
  · rw [handleCorrectAnswer_localCache, hcache]
    by_cases hc : memb (normalizeSentence sub.answer) stq.localCache
    · rw [if_pos hc]
      exact (memb_iff _ _).mp hc
    · rw [if_neg hc]
      simp
  · intro hin
    rw [handleCorrectAnswer_localCache, hcache,
      if_pos ((memb_iff _ _).mpr hin)]
  · intro w hw
    rw [handleCorrectAnswer_winner stq' roomId sub roomq w hrq hw]
    refine ⟨?_, ?_, ?_⟩
    · unfold roomPlayer
      simp [Server.getRoom, Server.scheduleTimer]
    · simp [Server.scheduleTimer, hnow]
    · intro r' hr'
      simp [Server.getRoom, Server.scheduleTimer] at hr'
      rw [← hr']
      constructor
      · rfl
      · simpa using
          mem_ringPush roomq.usedSentences (normalizeSentence sub.answer)
  · intro hw r' hr'
    rw [handleCorrectAnswer_noWinner stq' roomId sub roomq hrq hw] at hr'
    simp at hr'
    rw [← hr']

/-- The observable consequences of a passed vote: the normalized answer
is in the cache afterwards (the cache unchanged when it already held it),
and the submission is accepted — score + 1 for a still-present submitter,
queue emptied, ring extended, 15 s choice session opened; a vanished
submitter only has the queue cleared. -/
def VotePassFacts (st st' : Server) (roomId : String) (room : Room)
    (cv : VotingSession) : Prop :=
  normalizeSentence cv.submission.answer ∈ st'.localCache ∧
  (normalizeSentence cv.submission.answer ∈ st.localCache →
    st'.localCache = st.localCache) ∧
  (∀ w, alookup room.players cv.submission.nickname = some w →
    roomPlayer st' roomId cv.submission.nickname =
      some {w with score := w.score + 1} ∧
    alookup st'.choiceTimeouts roomId =
      some ⟨w.nickname, cv.submission.answer, st.now + 15000⟩ ∧
    (∀ r', st'.getRoom roomId = some r' →
      r'.validationQueue = [] ∧
      normalizeSentence cv.submission.answer ∈ r'.usedSentences)) ∧
  (alookup room.players cv.submission.nickname = none →
    ∀ r', st'.getRoom roomId = some r' → r'.validationQueue = [])

/-- Behaviour of `handleVoteEnd` claimed by C1.  With a non-empty voter
set the submission passes iff `validVotes >= floor(N/2)+1`; an empty
voter set auto-passes with no quorum check.  On fail the cache is
unchanged, the submitter's record is unchanged, and the state is exactly
queue processing resumed on the state with the vote discarded and the
head popped. -/
def VoteEndSpec (st : Server) (roomId : String) (room : Room)
    (cv : VotingSession) : Prop :=
  (cv.voters = [] →
    VotePassFacts st (handleVoteEnd st roomId) roomId room cv) ∧
  (cv.voters ≠ [] → cv.validVotes ≥ cv.voters.length / 2 + 1 →
    VotePassFacts st (handleVoteEnd st roomId) roomId room cv) ∧
  (cv.voters ≠ [] → cv.validVotes < cv.voters.length / 2 + 1 →
    (handleVoteEnd st roomId).localCache = st.localCache ∧
    roomPlayer (handleVoteEnd st roomId) roomId cv.submission.nickname =
      roomPlayer st roomId cv.submission.nickname ∧
    handleVoteEnd st roomId = processValidationQueue
      ((st.clearVoteTimers roomId cv.timeouts).setRoom roomId
        (({room with
          currentVote := none,
          validationQueue := room.validationQueue.tail}).pushMsg
          .voteFailed))
      roomId)

/-- Bridging lemma: any pass branch of `handleVoteEnd` that reduces to
the conditional cache insertion followed by `handleCorrectAnswer` enjoys
`VotePassFacts`. -/
theorem voteEnd_pass_facts (st stq : Server) (roomId : String)
    (room roomq : Room) (cv : VotingSession)
    (hres : handleVoteEnd st roomId =
      handleCorrectAnswer
        (if memb (normalizeSentence cv.submission.answer) stq.localCache
         then stq
         else {stq with localCache :=
           stq.localCache ++ [normalizeSentence cv.submission.answer]})
        roomId cv.submission)
    (hrq : stq.getRoom roomId = some roomq)
    (hpl : roomq.players = room.players)
    (hlc : stq.localCache = st.localCache)
    (hnow : stq.now = st.now) :
    VotePassFacts st (handleVoteEnd st roomId) roomId room cv := by
  have facts := cacheAdd_accept_facts stq
    (if memb (normalizeSentence cv.submission.answer) stq.localCache
     then stq
     else {stq with localCache :=
       stq.localCache ++ [normalizeSentence cv.submission.answer]})
    roomId roomq cv.submission hrq rfl
  unfold VotePassFacts
  rw [hres, ← hpl, ← hlc, ← hnow]
  exact facts

/-- C1: conclusion of a vote, relative to a room whose queue head is the
voted submission and whose queue holds each nickname at most once. -/
theorem c1_vote_end (st : Server) (roomId : String) (room : Room)
    (cv : VotingSession)
    (hr : st.getRoom roomId = some room)
    (hv : room.currentVote = some cv)
    (hq : room.validationQueue.head? = some cv.submission)
    (hnd : (room.validationQueue.map Submission.nickname).Nodup) :
    VoteEndSpec st roomId room cv := by
  unfold VoteEndSpec
  refine ⟨?_, ?_, ?_⟩
  · intro he
    apply voteEnd_pass_facts st
      ((st.clearVoteTimers roomId cv.timeouts).setRoom roomId
        (({room with
          currentVote := none,
          validationQueue := room.validationQueue.tail}).pushMsg
          .autoPass))
      roomId room
      (({room with
        currentVote := none,
        validationQueue := room.validationQueue.tail}).pushMsg .autoPass)
      cv ?_ (by simp) rfl (by simp) (by simp)
    unfold handleVoteEnd
    rw [hr]
    simp [hv, he]
  · intro hne hge
    have hlen : ¬cv.voters.length = 0 := by
      simpa [List.length_eq_zero] using hne
    apply voteEnd_pass_facts st
      ((st.clearVoteTimers roomId cv.timeouts).setRoom roomId
        (({room with
          currentVote := none,
          validationQueue := room.validationQueue.tail}).pushMsg
          .votePassed))
      roomId room
      (({room with
        currentVote := none,
        validationQueue := room.validationQueue.tail}).pushMsg
        .votePassed)
      cv ?_ (by simp) rfl (by simp) (by simp)
    unfold handleVoteEnd
    rw [hr]
    simp [hv, hlen, hge]
  · intro hne hlt
    have hlen : ¬cv.voters.length = 0 := by
      simpa [List.length_eq_zero] using hne
    have hnge : ¬cv.validVotes ≥ cv.voters.length / 2 + 1 := by omega
    have hres : handleVoteEnd st roomId =
        processValidationQueue
          ((st.clearVoteTimers roomId cv.timeouts).setRoom roomId
            (({room with
              currentVote := none,
              validationQueue := room.validationQueue.tail}).pushMsg
              .voteFailed))
          roomId := by
      unfold handleVoteEnd
      rw [hr]
      simp [hv, hlen, hnge]
    obtain ⟨t, hql⟩ : ∃ t, room.validationQueue = cv.submission :: t := by
      cases hql : room.validationQueue with
      | nil => rw [hql] at hq; simp at hq
      | cons a t =>
        rw [hql] at hq
        simp at hq
        exact ⟨t, by rw [hq]⟩
    have hforall : ∀ s ∈
        (({room with
          currentVote := none,
          validationQueue := room.validationQueue.tail}).pushMsg
          .voteFailed).validationQueue,
        s.nickname ≠ cv.submission.nickname := by
      intro s hs
      rw [pushMsg_validationQueue] at hs
      simp only [hql, List.tail_cons] at hs
      rw [hql] at hnd
      simp only [List.map_cons, List.nodup_cons] at hnd
      intro heq
      exact hnd.1 (by
        rw [← heq]
        exact List.mem_map_of_mem Submission.nickname hs)
    refine ⟨?_, ?_, ?_⟩
    · rw [hres, processValidationQueue_localCache]
      simp
    · rw [hres,
        processValidationQueue_roomPlayer _ _ _ _ (by simp) hforall]
      unfold roomPlayer
      simp [hr]
    · exact hres

/-- Concrete input for the C1 witness: a room where "B" is the only
voter over the submission at the queue head. -/
def c1Vote : VotingSession :=
  ⟨⟨['月', '一'], "A"⟩, [("B", "valid")], ["B"], [], 15000⟩

def c1Room : Room :=
  ⟨"R", "R",
   [("A", ⟨"A", 0, true, none⟩), ("B", ⟨"B", 2, true, none⟩)],
   false, '月', [], [⟨['月', '一'], "A"⟩], some c1Vote, []⟩

def c1St : Server := ⟨[("R", c1Room)], [], [], [], [], 0⟩

/-- C1 witness: the theorem applied at a concrete input. -/
theorem c1_witness : VoteEndSpec c1St "R" c1Room c1Vote :=
  c1_vote_end c1St "R" c1Room c1Vote rfl rfl rfl (by decide)

/-- The current vote of a room, `none` when the room is missing. -/
def roomVote (st : Server) (roomId : String) : Option VotingSession :=
  match st.getRoom roomId with
  | some r => r.currentVote
  | none => none

/-- Event sequence for the C4 counterexample: two players, a vote that
passes and opens a choice session for "A", then a submission by "B"
during the open choice window. -/
def c4Events : List Event :=
  [.createRoom "R" "A", .joinRoom "R" "B",
   .submitAnswer "R" "A" ['月', '一'],
   .submitVote "R" "B" "valid",
   .submitAnswer "R" "B" ['月', '二']]

/-- C4 counterexample: after the sequence above, the room holds an
active VotingSession while its ChoiceSession is still pending — the two
sessions coexist, refuting mutual exclusion. -/
theorem c4_counterexample :
    (roomVote (run init c4Events) "R").isSome = true ∧
    (alookup (run init c4Events).choiceTimeouts "R").isSome = true := by
  decide

/-- After a submission by a present player in a room with a pending
choice session, empty queue and no active vote, both a VotingSession and
the ChoiceSession exist. -/
def SessionOverlapSpec (st : Server) (roomId nickname : String)
    (answer : Str) : Prop :=
  (roomVote ((handlePlayerInput st roomId nickname answer).1)
    roomId).isSome = true ∧
  (alookup ((handlePlayerInput st roomId nickname answer).1).choiceTimeouts
    roomId).isSome = true

/-- C4 (amended): VotingSession and ChoiceSession are not mutually
exclusive.  Submission intake never checks for a pending choice session:
a valid, uncached submission arriving while the choice window is open is
processed immediately and opens a VotingSession while the ChoiceSession
is still pending. -/
theorem c4_session_overlap (st : Server) (roomId nickname : String)
    (answer : Str) (room : Room) (entry : ChoiceEntry)
    (hr : st.getRoom roomId = some room)
    (hn : nickname ≠ "")
    (hp : hasKey room.players nickname = true)
    (hchoice : alookup st.choiceTimeouts roomId = some entry)
    (hnv : room.currentVote = none)
    (hq0 : room.validationQueue = [])
    (ht : trimText answer ≠ [])
    (hil : hasIllegalChar (trimText answer) = false)
    (hused : memb (normalizeSentence (trimText answer))
      room.usedSentences = false)
    (hstart : memb room.currentStartChar (trimText answer) = true)
    (hcache : memb (normalizeSentence (trimText answer))
      st.localCache = false) :
    SessionOverlapSpec st roomId nickname answer := by
  have hres1 : handlePlayerInput st roomId nickname answer =
      (processValidationQueue
        (st.setRoom roomId
          {room with validationQueue :=
            room.validationQueue ++ [⟨trimText answer, nickname⟩]})
        roomId, none) := by
    unfold handlePlayerInput
    rw [hr]
    have hq' : ¬room.validationQueue.any
        (fun s => decide (s.nickname = nickname)) = true := by
      simp [hq0]
    simp [hn, hp, ht, hil, hused, hstart, hq']
  have hrm : (st.setRoom roomId
      {room with validationQueue :=
        room.validationQueue ++ [⟨trimText answer, nickname⟩]}).getRoom
      roomId =
      some {room with validationQueue :=
        room.validationQueue ++ [⟨trimText answer, nickname⟩]} := by
    simp
  unfold SessionOverlapSpec
  rw [hres1]
  constructor
  · unfold roomVote processValidationQueue
    rw [hrm]
    simp [hnv, hq0, hcache, startPlayerVote]
  · unfold processValidationQueue
    rw [hrm]
    simp [hnv, hq0, hcache, startPlayerVote, hchoice]

/-- Concrete input for the C4 witness: the choice session for "A" is
open, "B" submits an uncached valid answer. -/
def c4Room : Room :=
  ⟨"R", "R",
   [("A", ⟨"A", 1, true, none⟩), ("B", ⟨"B", 0, true, none⟩)],
   false, '月', [['月', '一']], [], none, []⟩

def c4St : Server :=
  ⟨[("R", c4Room)], [['月', '一']], [],
   [("R", ⟨"A", ['月', '一'], 15000⟩)],
   [(.choice "R" ['月', '一'], 15000)], 0⟩

/-- C4 witness: the amended theorem applied at a concrete input. -/
theorem c4_witness : SessionOverlapSpec c4St "R" "B" ['月', '二'] :=
  c4_session_overlap c4St "R" "B" ['月', '二'] c4Room
    ⟨"A", ['月', '一'], 15000⟩ rfl (by decide) (by decide) rfl rfl rfl
    (by decide) (by decide) (by decide) (by decide) (by decide)

/-- Event sequence for the C6 counterexample: a room with an active vote
(one pending per-voter timer) is deleted by the admin. -/
def c6Events : List Event :=
  [.createRoom "R" "A", .joinRoom "R" "B",
   .submitAnswer "R" "A" ['月', '一'],
   .adminDeleteRoom "R"]

/-- C6 counterexample: after the admin deletes the room, the room is
gone from the registry while the per-voter vote timer is still pending in
the runtime queue — it was not cancelled before removal. -/
theorem c6_counterexample :
    (run init c6Events).getRoom "R" = none ∧
    (run init c6Events).timerScheduled (.vote "R" "B") = true := by
  decide

/-- Firing any timer kind owned by a removed room leaves the room
registry unchanged. -/
def StaleTimerSpec (st : Server) (roomId : String) : Prop :=
  (∀ n, (fireVoteTimer st roomId n).rooms = st.rooms) ∧
  (∀ a, (fireChoiceTimer st roomId a).rooms = st.rooms) ∧
  (∀ n, (fireReconnectTimer st roomId n).rooms = st.rooms)

/-- C6 (amended): destroying a room — last player leaving an ephemeral
room, or an admin delete — cancels none of the timers the room owns;
they stay pending and may fire afterwards, but every timer callback
re-checks the registry, so a stale firing never mutates the room
registry for the removed room. -/
theorem c6_stale_timers_inert (st : Server) (roomId : String)
    (hr : st.getRoom roomId = none) :
    StaleTimerSpec st roomId := by
  have hr' : ∀ (st2 : Server), st2.rooms = st.rooms →
      st2.getRoom roomId = none := by
    intro st2 h2
    show alookup st2.rooms roomId = none
    rw [h2]
    exact hr
  refine ⟨?_, ?_, ?_⟩
  · intro n
    unfold fireVoteTimer
    by_cases h : st.timerScheduled (.vote roomId n) = true
    · rw [if_pos h]
      unfold handleVoteTimeout
      rw [hr' (st.clearTimer (.vote roomId n)) rfl]
      rfl
    · rw [if_neg h]
  · intro a
    unfold fireChoiceTimer
    by_cases h : st.timerScheduled (.choice roomId a) = true
    · rw [if_pos h]
      simp only [clearTimer_choiceTimeouts]
      cases hc : alookup st.choiceTimeouts roomId with
      | none =>
        simp only [hc]
        rfl
      | some entry =>
        simp only [hc]
        have h1 : ∀ st2 : Server, st2.rooms = st.rooms →
            (st2.broadcastMessage roomId Msg.choiceExpired).rooms =
              st.rooms := by
          intro st2 h2
          unfold Server.broadcastMessage
          rw [hr' st2 h2]
          exact h2
        have h2 : ∀ (st2 : Server) (c : Char) (ch : String),
            st2.rooms = st.rooms →
            (startNewRound st2 roomId c ch).rooms = st.rooms := by
          intro st2 c ch h2
          unfold startNewRound
          rw [hr' st2 h2]
          exact h2
        exact h2 _ _ _ (h1 _ rfl)
    · rw [if_neg h]
  · intro n
    unfold fireReconnectTimer
    by_cases h : st.timerScheduled (.reconnect roomId n) = true
    · rw [if_pos h]
      dsimp only
      rw [hr' (st.clearTimer (.reconnect roomId n)) rfl]
      rfl
    · rw [if_neg h]

/-- C6 witness: the amended theorem applied at the state reached by the
counterexample event sequence. -/
theorem c6_witness : StaleTimerSpec (run init c6Events) "R" :=
  c6_stale_timers_inert (run init c6Events) "R" (by decide)

/-- `eraseP` strictly shrinks the matching sublist when a match exists. -/
theorem length_filter_eraseP_lt {α : Type} (p : α → Bool) (l : List α)
    (h : l.any p = true) :
    ((l.eraseP p).filter p).length < (l.filter p).length := by
  induction l with
  | nil => simp at h
  | cons a t ih =>
    by_cases ha : p a = true
    · simp [List.eraseP_cons, ha, List.filter_cons]
    · have ht : t.any p = true := by
        simpa [List.any_cons, ha] using h
      simp [List.eraseP_cons, ha, List.filter_cons]
      exact ih ht

/-- `eraseP` with an incompatible predicate does not change a filter. -/
theorem filter_eraseP_incompat {α : Type} (p q : α → Bool) (l : List α)
    (h : ∀ e, q e = true → p e = false) :
    (l.eraseP q).filter p = l.filter p := by
  induction l with
  | nil => simp
  | cons a t ih =>
    by_cases ha : q a = true
    · simp [List.eraseP_cons, ha, List.filter_cons, h a ha]
    · simp [List.eraseP_cons, ha, List.filter_cons]
      by_cases hp : p a = true <;> simp [hp, ih]

/-- A filtered-out element is never a member afterwards. -/
theorem memb_filter_ne (l : List String) (a : String) :
    memb a (l.filter (fun x => decide (x ≠ a))) = false := by
  induction l with
  | nil => simp [memb]
  | cons x t ih =>
    by_cases hx : x = a
    · simp [List.filter_cons, hx, memb] at ih ⊢
    · simp [List.filter_cons, hx, memb, List.any_cons] at ih ⊢

/-- The number of pending reconnect grace timers for a nickname. -/
def reconTimerCount (st : Server) (n : String) : Nat :=
  (st.scheduled.filter (isReconFor n)).length

/-- Behaviour of `reconnectPlayer` claimed by C7.  Success exactly
against an offline record under the exact nickname; on success the
record keeps its score and nickname with the online flag restored and
the disconnect timestamp cleared, the grace-timer handle is dropped and
a pending grace timer cancelled, and an un-voted eligible voter gets a
fresh full 15000 ms voting deadline; once the grace timer has fired, the
record is gone and reconnection is rejected. -/
def ReconnectSpec (st : Server) (roomId nickname : String) (room : Room) :
    Prop :=
  ((reconnectPlayer st roomId nickname).2 = .joinSuccess ↔
    (∃ p, alookup room.players nickname = some p ∧ p.online = false)) ∧
  (∀ p, alookup room.players nickname = some p → p.online = false →
    (∃ room', (reconnectPlayer st roomId nickname).1.getRoom roomId =
        some room' ∧
      alookup room'.players nickname =
        some {p with online := true, disconnectTime := none}) ∧
    memb nickname
      (reconnectPlayer st roomId nickname).1.reconnectTimeouts = false ∧
    (st.timerScheduled (.reconnect roomId nickname) = true →
      reconTimerCount (reconnectPlayer st roomId nickname).1 nickname <
        reconTimerCount st nickname) ∧
    (∀ cv, room.currentVote = some cv → nickname ∈ cv.voters →
      cv.hasVoted nickname = false →
      (TimerId.vote roomId nickname, st.now + 15000) ∈
        (reconnectPlayer st roomId nickname).1.scheduled)) ∧
  (∀ p, alookup room.players nickname = some p → p.online = false →
    room.isPermanent = false →
    st.timerScheduled (.reconnect roomId nickname) = true →
    roomPlayer (fireReconnectTimer st roomId nickname) roomId nickname =
      none ∧
    (reconnectPlayer (fireReconnectTimer st roomId nickname) roomId
      nickname).2 = .reconnectError)

/-- Existence form of `getRoom_setRoom`, convenient for unification. -/
theorem exists_getRoom_setRoom (st : Server) (roomId : String) (R : Room)
    (P : Room → Prop) (h : P R) :
    ∃ room', (st.setRoom roomId R).getRoom roomId = some room' ∧ P room' :=
  ⟨R, by simp, h⟩

/-- C7: the reconnect path, relative to an existing room. -/
theorem c7_reconnect (st : Server) (roomId nickname : String) (room : Room)
    (hr : st.getRoom roomId = some room) :
    ReconnectSpec st roomId nickname room := by
  refine ⟨⟨?_, ?_⟩, ?_, ?_⟩
  · -- success implies an offline exact record
    intro hs
    unfold reconnectPlayer at hs
    rw [hr] at hs
    dsimp only at hs
    cases hp : alookup room.players nickname with
    | none =>
      rw [hp] at hs
      simp at hs
    | some p =>
      rw [hp] at hs
      dsimp only at hs
      by_cases ho : p.online = true
      · rw [if_pos ho] at hs
        simp at hs
      · exact ⟨p, rfl, by simpa using ho⟩
  · -- an offline exact record implies success
    rintro ⟨p, hp, hoff⟩
    unfold reconnectPlayer
    rw [hr]
    dsimp only
    rw [hp]
    dsimp only
    rw [if_neg (by simp [hoff])]
    split <;> rfl
  · -- success facts
    intro p hp hoff
    unfold reconnectPlayer
    rw [hr]
    dsimp only
    rw [hp]
    dsimp only
    rw [if_neg (by simp [hoff])]
    refine ⟨?_, ?_, ?_, ?_⟩
    · split
      · exact exists_getRoom_setRoom _ _ _ _
          (by cases hcv : room.currentVote <;> simp [hcv])
      · exact exists_getRoom_setRoom _ _ _ _ (by simp)
    · split <;> simpa using memb_filter_ne st.reconnectTimeouts nickname
    · intro hts
      have hany : st.scheduled.any (isReconFor nickname) = true := by
        unfold Server.timerScheduled at hts
        rw [List.any_eq_true] at hts ⊢
        obtain ⟨e, he, hpe⟩ := hts
        refine ⟨e, he, ?_⟩
        have he1 : e.1 = TimerId.reconnect roomId nickname := by
          simpa using hpe
        simp [isReconFor, he1]
      have hincompat : ∀ e : TimerId × Nat,
          decide (e.1 = TimerId.vote roomId nickname) = true →
          isReconFor nickname e = false := by
        intro e he
        have he1 : e.1 = TimerId.vote roomId nickname := by simpa using he
        simp [isReconFor, he1]
      split
      · unfold reconTimerCount
        simp only [setRoom_scheduled, clearTimer_scheduled,
          scheduleTimer_scheduled, List.filter_append]
        rw [filter_eraseP_incompat _ _ _ hincompat]
        have hone : (List.filter (isReconFor nickname)
            [(TimerId.vote roomId nickname, st.now + 15000)]) = [] := by
          simp [isReconFor]
        simp only [hone, List.append_nil]
        exact length_filter_eraseP_lt _ _ hany
      · unfold reconTimerCount
        simp only [setRoom_scheduled]
        exact length_filter_eraseP_lt _ _ hany
    · intro cv hcv hel hnvt
      split
      · simp [Server.scheduleTimer]
      · next hnr =>
        exfalso
        simp [hcv, hnvt, (memb_iff _ _).mpr hel] at hnr
  · -- after the grace timer fired, the record is gone
    intro p hp hoff _hperm hts
    have hstep : fireReconnectTimer st roomId nickname =
        (removePlayerFromRoom (st.clearTimer (.reconnect roomId nickname))
          roomId nickname).1 ∨
        fireReconnectTimer st roomId nickname =
        (removePlayerFromRoom (st.clearTimer (.reconnect roomId nickname))
          roomId nickname).1.broadcastMessage roomId .dropped := by
      unfold fireReconnectTimer
      rw [if_pos hts]
      dsimp only
      rw [show (st.clearTimer
          (TimerId.reconnect roomId nickname)).getRoom roomId =
          some room from by simpa using hr]
      dsimp only
      rw [hp]
      dsimp only
      rw [if_neg (by simp [hoff])]
      by_cases hd : (removePlayerFromRoom
          (st.clearTimer (.reconnect roomId nickname)) roomId nickname).2 =
          true
      · left
        rw [if_pos hd]
      · right
        rw [if_neg hd]
    have hrm : ∀ k,
        (removePlayerFromRoom (st.clearTimer (.reconnect roomId nickname))
          roomId nickname).1.getRoom roomId = some k →
        alookup k.players nickname = none := by
      intro k hk
      unfold removePlayerFromRoom at hk
      rw [show (st.clearTimer
          (TimerId.reconnect roomId nickname)).getRoom roomId =
          some room from by simpa using hr] at hk
      dsimp only at hk
      rw [if_pos (by simp [hasKey, hp])] at hk
      by_cases hd : ({room with players := aerase room.players nickname}
          : Room).players = [] ∧
          ({room with players := aerase room.players nickname}
            : Room).isPermanent = false
      · rw [if_pos hd] at hk
        simp at hk
      · rw [if_neg hd] at hk
        simp at hk
        rw [← hk]
        simp
    have hgone : ∀ k,
        (fireReconnectTimer st roomId nickname).getRoom roomId = some k →
        alookup k.players nickname = none := by
      intro k hk
      cases hstep with
      | inl h1 =>
        rw [h1] at hk
        exact hrm k hk
      | inr h2 =>
        rw [h2, broadcastMessage_getRoom] at hk
        cases hmid : (removePlayerFromRoom
            (st.clearTimer (.reconnect roomId nickname)) roomId
            nickname).1.getRoom roomId with
        | none =>
          rw [hmid] at hk
          simp [hmid] at hk
        | some mid =>
          rw [hmid] at hk
          simp at hk
          rw [← hk]
          simpa using hrm mid hmid
    constructor
    · unfold roomPlayer
      cases hk : (fireReconnectTimer st roomId nickname).getRoom roomId with
      | none => rfl
      | some k =>
        exact hgone k hk
    · unfold reconnectPlayer
      cases hk : (fireReconnectTimer st roomId nickname).getRoom roomId with
      | none => rfl
      | some k =>
        dsimp only
        rw [hgone k hk]

/-- Concrete input for the C7 witness: "B" is offline with a pending
grace timer while a vote waits on them. -/
def c7Room : Room :=
  ⟨"R", "R",
   [("A", ⟨"A", 1, true, none⟩), ("B", ⟨"B", 3, false, some 5⟩)],
   false, '月', [], [⟨['月', '一'], "A"⟩],
   some ⟨⟨['月', '一'], "A"⟩, [], ["B"], ["B"], 15000⟩, []⟩

def c7St : Server :=
  ⟨[("R", c7Room)], [], ["B"], [],
   [(.vote "R" "B", 15000), (.reconnect "R" "B", 30005)], 0⟩

/-- C7 witness: the theorem applied at a concrete input. -/
theorem c7_witness : ReconnectSpec c7St "R" "B" c7Room :=
  c7_reconnect c7St "R" "B" c7Room rfl

/-- Appending a fresh element preserves distinctness. -/
theorem nodup_snoc {α : Type} (l : List α) (a : α) (h : l.Nodup)
    (ha : a ∉ l) : (l ++ [a]).Nodup := by
  rw [List.nodup_append]
  refine ⟨h, List.nodup_singleton a, ?_⟩
  intro b hb he
  simp only [List.mem_singleton] at he
  exact absurd (he ▸ hb) ha

/-- The cache either stays put or gains one fresh entry: the relation
every single reaction respects. -/
def CacheExtends (st st' : Server) : Prop :=
  st'.localCache = st.localCache ∨
  ∃ nk, nk ∉ st.localCache ∧ st'.localCache = st.localCache ++ [nk]

theorem CacheExtends.nodup {st st' : Server} (h : CacheExtends st st')
    (hn : st.localCache.Nodup) : st'.localCache.Nodup := by
  cases h with
  | inl he => rw [he]; exact hn
  | inr he =>
    obtain ⟨nk, hmem, he⟩ := he
    rw [he]
    exact nodup_snoc _ _ hn hmem

theorem CacheExtends.of_eq {st st' : Server}
    (h : st'.localCache = st.localCache) : CacheExtends st st' :=
  Or.inl h

theorem CacheExtends.trans_eq {st stm st' : Server}
    (h : stm.localCache = st.localCache) (h2 : CacheExtends stm st') :
    CacheExtends st st' := by
  cases h2 with
  | inl he => exact Or.inl (he.trans h)
  | inr he =>
    obtain ⟨nk, hmem, he⟩ := he
    rw [h] at hmem he
    exact Or.inr ⟨nk, hmem, he⟩

theorem handleVoteEnd_cacheExtends (st : Server) (roomId : String) :
    CacheExtends st (handleVoteEnd st roomId) := by
  unfold handleVoteEnd
  cases hr : st.getRoom roomId with
  | none => exact Or.inl rfl
  | some room =>
    dsimp only
    cases hv : room.currentVote with
    | none => exact Or.inl rfl
    | some cv =>
      dsimp only
      by_cases hz : cv.voters.length = 0
      · simp only [hz, if_pos]
        by_cases hc : memb (normalizeSentence cv.submission.answer)
            st.localCache = true
        · apply CacheExtends.of_eq
          rw [handleCorrectAnswer_localCache]
          simp [hc]
        · right
          refine ⟨normalizeSentence cv.submission.answer, ?_, ?_⟩
          · intro hmem
            exact hc ((memb_iff _ _).mpr hmem)
          · rw [handleCorrectAnswer_localCache]
            simp [hc]
      · simp only [hz, if_neg, if_false]
        by_cases hge : cv.validVotes ≥ cv.voters.length / 2 + 1
        · simp only [hge, if_pos]
          by_cases hc : memb (normalizeSentence cv.submission.answer)
              st.localCache = true
          · apply CacheExtends.of_eq
            rw [handleCorrectAnswer_localCache]
            simp [hc]
          · right
            refine ⟨normalizeSentence cv.submission.answer, ?_, ?_⟩
            · intro hmem
              exact hc ((memb_iff _ _).mpr hmem)
            · rw [handleCorrectAnswer_localCache]
              simp [hc]
        · simp only [hge, if_neg, if_false]
          apply CacheExtends.of_eq
          rw [processValidationQueue_localCache]
          simp

theorem handleVoteTimeout_cacheExtends (st : Server) (roomId n : String) :
    CacheExtends st (handleVoteTimeout st roomId n) := by
  unfold handleVoteTimeout
  cases hr : st.getRoom roomId with
  | none => exact Or.inl rfl
  | some room =>
    dsimp only
    cases hv : room.currentVote with
    | none => exact Or.inl rfl
    | some cv =>
      dsimp only
      by_cases hvd : cv.hasVoted n = true
      · simp only [hvd, if_pos]
        exact Or.inl rfl
      · simp only [hvd, if_neg, if_false, Bool.not_eq_true]
        split
        · refine CacheExtends.trans_eq ?_ (handleVoteEnd_cacheExtends _ _)
          simp
        · exact Or.inl rfl

theorem handlePlayerVote_cacheExtends (st : Server) (roomId n v' : String) :
    CacheExtends st (handlePlayerVote st roomId n v') := by
  unfold handlePlayerVote
  cases hr : st.getRoom roomId with
  | none => exact Or.inl rfl
  | some room =>
    dsimp only
    cases hv : room.currentVote with
    | none => exact Or.inl rfl
    | some cv =>
      dsimp only
      split
      · exact Or.inl rfl
      · split
        · split
          · refine CacheExtends.trans_eq ?_ (handleVoteEnd_cacheExtends _ _)
            simp
          · exact Or.inl rfl
        · exact Or.inl rfl

theorem disconnectVoteBlock_cacheExtends (st : Server) (roomId n : String)
    (captured : Option VotingSession) :
    CacheExtends st (disconnectVoteBlock st roomId n captured) := by
  unfold disconnectVoteBlock
  cases captured with
  | none => exact Or.inl rfl
  | some cv =>
    dsimp only
    by_cases hcond : memb n cv.voters = true ∧ cv.hasVoted n = false
    · rw [if_pos hcond]
      cases hmid : (st.clearTimer (TimerId.vote roomId n)).getRoom roomId with
      | none =>
        simp only [hmid]
        split
        · refine CacheExtends.trans_eq ?_ (handleVoteEnd_cacheExtends _ _)
          simp
        · exact Or.inl (by simp)
      | some r =>
        simp only [hmid]
        split
        · refine CacheExtends.trans_eq ?_ (handleVoteEnd_cacheExtends _ _)
          simp
        · exact Or.inl (by simp)
    · rw [if_neg hcond]
      exact Or.inl rfl

theorem startNewRound_localCache (st : Server) (roomId : String) (c : Char)
    (n : String) : (startNewRound st roomId c n).localCache = st.localCache := by
  unfold startNewRound
  split <;> simp

theorem removePlayerFromRoom_localCache (st : Server) (roomId n : String) :
    (removePlayerFromRoom st roomId n).1.localCache = st.localCache := by
  unfold removePlayerFromRoom
  split
  · rfl
  · try dsimp only
    split
    · split <;> simp
    · simp

theorem handlePlayerInput_localCache (st : Server) (roomId n : String)
    (a : Str) : (handlePlayerInput st roomId n a).1.localCache = st.localCache := by
  unfold handlePlayerInput
  split
  · rfl
  · try dsimp only
    split
    · rfl
    · split
      · rfl
      · try dsimp only
        split
        · rfl
        · split
          · rfl
          · split
            · rfl
            · split
              · rfl
              · try dsimp only
                rw [processValidationQueue_localCache]
                simp

theorem withdrawAnswer_localCache (st : Server) (roomId n : String) :
    (withdrawAnswer st roomId n).localCache = st.localCache := by
  unfold withdrawAnswer
  split
  · rfl
  · split
    · rfl
    · try dsimp only
      split
      · split
        · try dsimp only
          split <;> (rw [processValidationQueue_localCache]; simp)
        · rw [processValidationQueue_localCache]; simp
      · simp

theorem reconnectPlayer_localCache (st : Server) (roomId n : String) :
    (reconnectPlayer st roomId n).1.localCache = st.localCache := by
  unfold reconnectPlayer
  split
  · rfl
  · try dsimp only
    split
    · rfl
    · try dsimp only
      split
      · rfl
      · try dsimp only
        split <;> simp

theorem joinRoom_localCache (st : Server) (roomId n : String) :
    (joinRoom st roomId n).1.localCache = st.localCache := by
  unfold joinRoom
  split
  · rfl
  · try dsimp only
    split
    · rfl
    · split
      · rfl
      · split
        · rw [reconnectPlayer_localCache]
        · simp

theorem createRoom_localCache (st : Server) (roomId n : String) :
    (createRoom st roomId n).1.localCache = st.localCache := by
  unfold createRoom
  split
  · rfl
  · rw [joinRoom_localCache]; simp

theorem handleCharChoice_localCache (st : Server) (roomId n : String)
    (c : Char) : (handleCharChoice st roomId n c).localCache = st.localCache := by
  unfold handleCharChoice
  split
  · split
    · rw [startNewRound_localCache]; simp
    · rfl
  · rfl

theorem fireChoiceTimer_localCache (st : Server) (roomId : String)
    (a : Str) : (fireChoiceTimer st roomId a).localCache = st.localCache := by
  unfold fireChoiceTimer
  split
  · try dsimp only
    split
    · rw [startNewRound_localCache]; simp
    · simp
  · rfl

theorem fireReconnectTimer_localCache (st : Server) (roomId n : String) :
    (fireReconnectTimer st roomId n).localCache = st.localCache := by
  unfold fireReconnectTimer
  split
  · try dsimp only
    split
    · simp
    · split
      · simp
      · split
        · simp
        · try dsimp only
          cases hrm : removePlayerFromRoom (st.clearTimer
              (TimerId.reconnect roomId n)) roomId n with
          | mk a b =>
            have ha : a.localCache = st.localCache := by
              have h2 := removePlayerFromRoom_localCache
                (st.clearTimer (TimerId.reconnect roomId n)) roomId n
              rw [hrm] at h2
              simpa using h2
            split <;> simp [ha]
  · rfl

theorem adminDeleteRoom_localCache (st : Server) (roomId : String) :
    (adminDeleteRoom st roomId).localCache = st.localCache := by
  unfold adminDeleteRoom
  split <;> simp

theorem adminKickPlayer_localCache (st : Server) (roomId n : String) :
    (adminKickPlayer st roomId n).localCache = st.localCache := by
  unfold adminKickPlayer
  split
  · rfl
  · split
    · rw [removePlayerFromRoom_localCache]
    · rfl

theorem adminTogglePermanent_localCache (st : Server) (roomId : String) :
    (adminTogglePermanent st roomId).localCache = st.localCache := by
  unfold adminTogglePermanent
  split <;> simp

theorem fireVoteTimer_cacheExtends (st : Server) (roomId n : String) :
    CacheExtends st (fireVoteTimer st roomId n) := by
  unfold fireVoteTimer
  split
  · refine CacheExtends.trans_eq ?_ (handleVoteTimeout_cacheExtends _ _ _)
    simp
  · exact Or.inl rfl

theorem handlePlayerDisconnect_cacheExtends (st : Server) (roomId n : String)
    (g : Bool) : CacheExtends st (handlePlayerDisconnect st roomId n g) := by
  unfold handlePlayerDisconnect
  split
  · exact Or.inl rfl
  · split
    · exact Or.inl rfl
    · try dsimp only
      split
      · exact Or.inl rfl
      · try dsimp only
        split
        · refine CacheExtends.trans_eq ?_
            (disconnectVoteBlock_cacheExtends _ _ _ _)
          simp
        · split
          · refine CacheExtends.trans_eq ?_
              (disconnectVoteBlock_cacheExtends _ _ _ _)
            rw [removePlayerFromRoom_localCache]
            simp
          · try dsimp only
            split
            · exact Or.inl (by simp)
            · refine CacheExtends.trans_eq ?_
                (disconnectVoteBlock_cacheExtends _ _ _ _)
              simp

theorem adminCacheAdd_nodup (st : Server) (s : Str)
    (h : st.localCache.Nodup) : (adminCacheAdd st s).localCache.Nodup := by
  simp only [adminCacheAdd]
  split
  · next hc =>
    try dsimp only
    unfold sortCache
    refine ((List.perm_insertionSort _ _).nodup_iff).mpr ?_
    refine nodup_snoc _ _ h ?_
    intro hmem
    have := (memb_iff (normalizeSentence s) st.localCache).mpr hmem
    rw [hc.2] at this
    exact Bool.noConfusion this
  · exact h

theorem adminCacheRemove_nodup (st : Server) (s : Str)
    (h : st.localCache.Nodup) : (adminCacheRemove st s).localCache.Nodup := by
  simp only [adminCacheRemove]
  split
  · exact h.erase _
  · exact h

/-- Every single reaction keeps the approved cache duplicate-free. -/
theorem step_cache_nodup (st : Server) (e : Event)
    (h : st.localCache.Nodup) : (step st e).localCache.Nodup := by
  cases e with
  | createRoom r n => simpa only [step, createRoom_localCache] using h
  | joinRoom r n =>
    simp only [step]
    split
    · simpa only [joinRoom_localCache] using h
    · exact h
  | reconnect r n => simpa only [step, reconnectPlayer_localCache] using h
  | submitAnswer r n a =>
    simpa only [step, handlePlayerInput_localCache] using h
  | withdrawAnswer r n =>
    simpa only [step, withdrawAnswer_localCache] using h
  | submitVote r n v => exact (handlePlayerVote_cacheExtends st r n v).nodup h
  | chooseNewChar r n c =>
    simpa only [step, handleCharChoice_localCache] using h
  | disconnect r n g =>
    exact (handlePlayerDisconnect_cacheExtends st r n g).nodup h
  | fireVoteTimer r n => exact (fireVoteTimer_cacheExtends st r n).nodup h
  | fireChoiceTimer r a =>
    simpa only [step, fireChoiceTimer_localCache] using h
  | fireReconnectTimer r n =>
    simpa only [step, fireReconnectTimer_localCache] using h
  | adminDeleteRoom r =>
    simpa only [step, adminDeleteRoom_localCache] using h
  | adminKickPlayer r n =>
    simpa only [step, adminKickPlayer_localCache] using h
  | adminTogglePermanent r =>
    simpa only [step, adminTogglePermanent_localCache] using h
  | adminCacheAdd a => exact adminCacheAdd_nodup st a h
  | adminCacheRemove a => exact adminCacheRemove_nodup st a h
  | advanceTime d => exact h

theorem run_cache_nodup (evs : List Event) : ∀ st : Server,
    st.localCache.Nodup → (run st evs).localCache.Nodup := by
  induction evs with
  | nil => intro st h; exact h
  | cons e rest ih =>
    intro st h
    exact ih (step st e) (step_cache_nodup st e h)

/-- C10: the process-wide approved cache never holds two equal entries in
any state reachable from process start: every insertion path (zero-voter
auto-pass, majority pass, admin cache add) is guarded by a membership
check, and every other operation only preserves or shrinks the cache. -/
theorem c10_cache_nodup (evs : List Event) :
    ((run init evs).localCache).Nodup :=
  run_cache_nodup evs init List.nodup_nil

/-- The nicknames of a room's queued submissions, in queue order. -/
def qNames (r : Room) : List String := r.validationQueue.map Submission.nickname

/-- C8 invariant: every registered room's validation queue holds at most
one entry per nickname. -/
def QInv (st : Server) : Prop :=
  ∀ k r, st.getRoom k = some r → (qNames r).Nodup

theorem QInv.get {st : Server} (h : QInv st) {k : String} {r : Room}
    (hr : st.getRoom k = some r) : (qNames r).Nodup := h k r hr

theorem QInv.of_rooms_eq {st st' : Server} (h : QInv st)
    (he : st'.rooms = st.rooms) : QInv st' := by
  intro k r hr
  apply h k r
  have hg : st'.getRoom k = st.getRoom k := by
    unfold Server.getRoom
    rw [he]
  rw [hg] at hr
  exact hr

theorem QInv.setRoom {st : Server} (h : QInv st) (k : String) (r : Room)
    (hq : (qNames r).Nodup) : QInv (st.setRoom k r) := by
  intro k' r' hr'
  rw [getRoom_setRoom] at hr'
  by_cases he : k' = k
  · rw [if_pos he] at hr'
    cases hr'
    exact hq
  · rw [if_neg he] at hr'
    exact h k' r' hr'

theorem QInv.delRoom {st : Server} (h : QInv st) (k : String) :
    QInv (st.delRoom k) := by
  intro k' r' hr'
  rw [getRoom_delRoom] at hr'
  by_cases he : k' = k
  · rw [if_pos he] at hr'
    exact Option.noConfusion hr'
  · rw [if_neg he] at hr'
    exact h k' r' hr'

theorem QInv.broadcast {st : Server} (h : QInv st) (rid : String)
    (m : Msg) : QInv (st.broadcastMessage rid m) := by
  unfold Server.broadcastMessage
  cases hr : st.getRoom rid with
  | none => exact h
  | some r =>
    exact h.setRoom rid (r.pushMsg m) (by simpa [qNames] using h.get hr)

theorem nodup_map_tail {l : List Submission}
    (h : (l.map Submission.nickname).Nodup) :
    (l.tail.map Submission.nickname).Nodup :=
  h.sublist ((List.tail_sublist l).map _)

theorem nodup_map_filter {l : List Submission} (p : Submission → Bool)
    (h : (l.map Submission.nickname).Nodup) :
    ((l.filter p).map Submission.nickname).Nodup :=
  h.sublist ((List.filter_sublist l).map _)

theorem not_mem_qNames_of_any_false {l : List Submission} {n : String}
    (h : l.any (fun s => decide (s.nickname = n)) = false) :
    n ∉ l.map Submission.nickname := by
  intro hm
  rw [List.mem_map] at hm
  obtain ⟨sub, hs, he⟩ := hm
  have h2 : l.any (fun s => decide (s.nickname = n)) = true :=
    List.any_eq_true.mpr ⟨sub, hs, by simp [he]⟩
  rw [h] at h2
  exact Bool.noConfusion h2

theorem startNewRound_qinv {st : Server} (h : QInv st) (roomId : String)
    (c : Char) (n : String) : QInv (startNewRound st roomId c n) := by
  unfold startNewRound
  cases hr : st.getRoom roomId with
  | none => exact h
  | some room =>
    exact QInv.broadcast
      (h.setRoom roomId _ (by simpa [qNames] using h.get hr)) roomId .newRound

theorem removePlayerFromRoom_qinv {st : Server} (h : QInv st)
    (roomId n : String) : QInv (removePlayerFromRoom st roomId n).1 := by
  unfold removePlayerFromRoom
  cases hr : st.getRoom roomId with
  | none => exact h
  | some room =>
    dsimp only
    split
    · have h1 : QInv (st.setRoom roomId
          {room with players := aerase room.players n}) :=
        h.setRoom roomId _ (by simpa [qNames] using h.get hr)
      have h2 : QInv {st.setRoom roomId
          {room with players := aerase room.players n} with
        reconnectTimeouts :=
          (st.setRoom roomId
            {room with players := aerase room.players n}).reconnectTimeouts.filter
            (fun m => decide (m ≠ n))} :=
        h1.of_rooms_eq rfl
      split
      · exact h2.delRoom roomId
      · exact h2
    · exact h

theorem handleCorrectAnswer_qinv {st : Server} (h : QInv st)
    (roomId : String) (sub : Submission) :
    QInv (handleCorrectAnswer st roomId sub) := by
  unfold handleCorrectAnswer
  cases hr : st.getRoom roomId with
  | none => exact h
  | some room =>
    dsimp only
    cases hw : alookup room.players sub.nickname with
    | none => exact h.setRoom roomId _ (by simp [qNames])
    | some winner =>
      dsimp only
      have h1 : QInv (st.setRoom roomId
          {room with
            players := aset room.players sub.nickname
              {winner with score := winner.score + 1},
            validationQueue := [],
            usedSentences :=
              if (room.usedSentences ++ [normalizeSentence sub.answer]).length > 50
              then (room.usedSentences ++ [normalizeSentence sub.answer]).tail
              else room.usedSentences ++ [normalizeSentence sub.answer]}) :=
        h.setRoom roomId _ (by simp [qNames])
      exact (h1.of_rooms_eq rfl).of_rooms_eq rfl

theorem startPlayerVote_qinv {st : Server} (h : QInv st) (roomId : String)
    (sub : Submission) : QInv (startPlayerVote st roomId sub) := by
  unfold startPlayerVote
  cases hr : st.getRoom roomId with
  | none => exact h
  | some room =>
    dsimp only
    exact (h.of_rooms_eq rfl).setRoom roomId _
      (by simpa [qNames] using h.get hr)

theorem processValidationQueue_qinv {st : Server} (h : QInv st)
    (roomId : String) : QInv (processValidationQueue st roomId) := by
  unfold processValidationQueue
  cases hr : st.getRoom roomId with
  | none => exact h
  | some room =>
    dsimp only
    split
    · exact h
    · cases hq : room.validationQueue with
      | nil => exact h
      | cons sub rest =>
        dsimp only
        split
        · refine handleCorrectAnswer_qinv ?_ roomId sub
          refine h.setRoom roomId _ ?_
          have := h.get hr
          rw [qNames, hq] at this
          simpa [qNames] using this.sublist ((List.sublist_cons_self sub rest).map _)
        · refine startPlayerVote_qinv ?_ roomId sub
          exact h.setRoom roomId _ (by simpa [qNames] using h.get hr)

theorem handleVoteEnd_qinv {st : Server} (h : QInv st) (roomId : String) :
    QInv (handleVoteEnd st roomId) := by
  unfold handleVoteEnd
  cases hr : st.getRoom roomId with
  | none => exact h
  | some room =>
    try dsimp only
    cases hv : room.currentVote with
    | none => exact h
    | some cv =>
      try dsimp only
      have h1 : QInv (st.clearVoteTimers roomId cv.timeouts) :=
        h.of_rooms_eq (clearVoteTimers_rooms st roomId cv.timeouts)
      have hq : ((room.validationQueue.tail.map Submission.nickname)).Nodup :=
        nodup_map_tail (h.get hr)
      split
      · refine handleCorrectAnswer_qinv ?_ roomId cv.submission
        split
        · exact h1.setRoom roomId _ (by simpa [qNames] using hq)
        · exact (h1.setRoom roomId _ (by simpa [qNames] using hq)).of_rooms_eq
            rfl
      · try dsimp only
        split
        · refine handleCorrectAnswer_qinv ?_ roomId cv.submission
          split
          · exact h1.setRoom roomId _ (by simpa [qNames] using hq)
          · exact (h1.setRoom roomId _
              (by simpa [qNames] using hq)).of_rooms_eq rfl
        · refine processValidationQueue_qinv ?_ roomId
          exact h1.setRoom roomId _ (by simpa [qNames] using hq)

theorem handleVoteTimeout_qinv {st : Server} (h : QInv st)
    (roomId n : String) : QInv (handleVoteTimeout st roomId n) := by
  unfold handleVoteTimeout
  cases hr : st.getRoom roomId with
  | none => exact h
  | some room =>
    try dsimp only
    cases hv : room.currentVote with
    | none => exact h
    | some cv =>
      try dsimp only
      split
      · exact h
      · try dsimp only
        split
        · refine handleVoteEnd_qinv ?_ roomId
          exact h.setRoom roomId _ (by simpa [qNames] using h.get hr)
        · exact h.setRoom roomId _ (by simpa [qNames] using h.get hr)

theorem handlePlayerVote_qinv {st : Server} (h : QInv st)
    (roomId n v : String) : QInv (handlePlayerVote st roomId n v) := by
  unfold handlePlayerVote
  cases hr : st.getRoom roomId with
  | none => exact h
  | some room =>
    try dsimp only
    cases hv : room.currentVote with
    | none => exact h
    | some cv =>
      try dsimp only
      split
      · exact h
      · split
        · try dsimp only
          have h2 : QInv (st.clearTimer (TimerId.vote roomId n)) :=
            h.of_rooms_eq (clearTimer_rooms st _)
          split
          · refine handleVoteEnd_qinv ?_ roomId
            exact h2.setRoom roomId _ (by simpa [qNames] using h.get hr)
          · exact h2.setRoom roomId _ (by simpa [qNames] using h.get hr)
        · exact h

theorem handlePlayerInput_qinv {st : Server} (h : QInv st)
    (roomId n : String) (a : Str) :
    QInv (handlePlayerInput st roomId n a).1 := by
  unfold handlePlayerInput
  cases hr : st.getRoom roomId with
  | none => exact h
  | some room =>
    try dsimp only
    split
    · exact h
    · split
      · exact h
      · next hany =>
        try dsimp only
        split
        · exact h
        · split
          · exact h
          · split
            · exact h
            · split
              · exact h
              · try dsimp only
                refine processValidationQueue_qinv ?_ roomId
                refine h.setRoom roomId _ ?_
                simp only [Bool.not_eq_true] at hany
                have hnm := not_mem_qNames_of_any_false hany
                simpa [qNames] using nodup_snoc _ _ (h.get hr) hnm

theorem withdrawAnswer_qinv {st : Server} (h : QInv st)
    (roomId n : String) : QInv (withdrawAnswer st roomId n) := by
  unfold withdrawAnswer
  split
  · exact h
  · cases hr : st.getRoom roomId with
    | none => exact h
    | some room =>
      try dsimp only
      have hq : (((room.validationQueue.filter
          (fun s => decide (s.nickname ≠ n))).map Submission.nickname)).Nodup :=
        nodup_map_filter _ (h.get hr)
      split
      · try dsimp only
        split
        · refine processValidationQueue_qinv ?_ roomId
          split
          · exact (h.of_rooms_eq
              (clearVoteTimers_rooms st roomId _)).setRoom roomId _
              (by simpa [qNames] using hq)
          · exact h.setRoom roomId _ (by simpa [qNames] using hq)
        · refine processValidationQueue_qinv ?_ roomId
          exact h.setRoom roomId _ (by simpa [qNames] using hq)
      · exact h.setRoom roomId _ (by simpa [qNames] using hq)

theorem disconnectVoteBlock_qinv {st : Server} (h : QInv st)
    (roomId n : String) (captured : Option VotingSession) :
    QInv (disconnectVoteBlock st roomId n captured) := by
  unfold disconnectVoteBlock
  cases captured with
  | none => exact h
  | some cv =>
    try dsimp only
    by_cases hcond : memb n cv.voters = true ∧ cv.hasVoted n = false
    · rw [if_pos hcond]
      have h2 : QInv (st.clearTimer (TimerId.vote roomId n)) :=
        h.of_rooms_eq (clearTimer_rooms st _)
      cases hmid : (st.clearTimer (TimerId.vote roomId n)).getRoom roomId with
      | none =>
        simp only [hmid]
        split
        · exact handleVoteEnd_qinv h2 roomId
        · exact h2
      | some r =>
        simp only [hmid]
        have h3 : QInv ((st.clearTimer (TimerId.vote roomId n)).setRoom roomId
            (({r with currentVote := some {cv with
              votes := aset cv.votes n "valid",
              timeouts := cv.timeouts.filter
                (fun x => decide (x ≠ n))}}).pushMsg Msg.disconnectAuto)) :=
          h2.setRoom roomId _ (by simpa [qNames] using h2.get hmid)
        split
        · exact handleVoteEnd_qinv h3 roomId
        · exact h3
    · rw [if_neg hcond]
      exact h

theorem handlePlayerDisconnect_qinv {st : Server} (h : QInv st)
    (roomId n : String) (g : Bool) :
    QInv (handlePlayerDisconnect st roomId n g) := by
  unfold handlePlayerDisconnect
  split
  · exact h
  · cases hr : st.getRoom roomId with
    | none => exact h
    | some room =>
      try dsimp only
      cases hp : alookup room.players n with
      | none => exact h
      | some player =>
        try dsimp only
        split
        · refine disconnectVoteBlock_qinv ?_ roomId n _
          exact h.setRoom roomId _ (by simpa [qNames] using h.get hr)
        · split
          · refine disconnectVoteBlock_qinv ?_ roomId n _
            refine removePlayerFromRoom_qinv ?_ roomId n
            exact h.setRoom roomId _ (by simpa [qNames] using h.get hr)
          · try dsimp only
            split
            · exact h.setRoom roomId _ (by simpa [qNames] using h.get hr)
            · have hq2 : QInv (st.setRoom roomId (Room.pushMsg
                  {room with
                    players := aset room.players n
                      {player with
                        online := false, disconnectTime := some st.now}}
                  Msg.waitingReconnect)) :=
                h.setRoom roomId _ (by simpa [qNames] using h.get hr)
              refine disconnectVoteBlock_qinv ?_ roomId n _
              exact hq2.of_rooms_eq (by simp)

theorem reconnectPlayer_qinv {st : Server} (h : QInv st)
    (roomId n : String) : QInv (reconnectPlayer st roomId n).1 := by
  unfold reconnectPlayer
  cases hr : st.getRoom roomId with
  | none => exact h
  | some room =>
    try dsimp only
    cases hp : alookup room.players n with
    | none => exact h
    | some p =>
      try dsimp only
      split
      · exact h
      · try dsimp only
        split
        · try dsimp only
          split
          · refine QInv.setRoom ?_ roomId _
              (by simpa [qNames] using h.get hr)
            exact h.of_rooms_eq (by simp)
          · refine QInv.setRoom ?_ roomId _
              (by simpa [qNames] using h.get hr)
            exact h.of_rooms_eq (by simp)
        · refine QInv.setRoom ?_ roomId _ (by simpa [qNames] using h.get hr)
          exact h.of_rooms_eq (by simp)

theorem joinRoom_qinv {st : Server} (h : QInv st) (roomId n : String) :
    QInv (joinRoom st roomId n).1 := by
  unfold joinRoom
  cases hr : st.getRoom roomId with
  | none => exact h
  | some room =>
    try dsimp only
    split
    · exact h
    · split
      · exact h
      · split
        · exact reconnectPlayer_qinv h roomId n
        · exact h.setRoom roomId _ (by simpa [qNames] using h.get hr)

theorem createRoom_qinv {st : Server} (h : QInv st) (roomId n : String) :
    QInv (createRoom st roomId n).1 := by
  unfold createRoom
  split
  · exact h
  · refine joinRoom_qinv ?_ roomId n
    exact h.setRoom roomId _ (by simp [qNames])

theorem handleCharChoice_qinv {st : Server} (h : QInv st)
    (roomId n : String) (c : Char) :
    QInv (handleCharChoice st roomId n c) := by
  unfold handleCharChoice
  split
  · split
    · refine startNewRound_qinv ?_ roomId c n
      exact h.of_rooms_eq (by simp)
    · exact h
  · exact h

theorem fireVoteTimer_qinv {st : Server} (h : QInv st) (roomId n : String) :
    QInv (fireVoteTimer st roomId n) := by
  unfold fireVoteTimer
  split
  · exact handleVoteTimeout_qinv (h.of_rooms_eq (clearTimer_rooms st _))
      roomId n
  · exact h

theorem fireChoiceTimer_qinv {st : Server} (h : QInv st) (roomId : String)
    (a : Str) : QInv (fireChoiceTimer st roomId a) := by
  unfold fireChoiceTimer
  split
  · try dsimp only
    split
    · refine startNewRound_qinv ?_ roomId _ _
      exact QInv.broadcast (h.of_rooms_eq (by simp)) roomId .choiceExpired
    · exact h.of_rooms_eq (by simp)
  · exact h

theorem fireReconnectTimer_qinv {st : Server} (h : QInv st)
    (roomId n : String) : QInv (fireReconnectTimer st roomId n) := by
  unfold fireReconnectTimer
  split
  · try dsimp only
    have h1 : QInv (st.clearTimer (TimerId.reconnect roomId n)) :=
      h.of_rooms_eq (clearTimer_rooms st _)
    split
    · exact h1
    · split
      · exact h1
      · split
        · exact h1
        · try dsimp only
          have h2 := removePlayerFromRoom_qinv h1 roomId n
          cases hrm : removePlayerFromRoom
              (st.clearTimer (TimerId.reconnect roomId n)) roomId n with
          | mk a b =>
            rw [hrm] at h2
            split
            · exact h2
            · exact h2.broadcast roomId .dropped
  · exact h

theorem adminDeleteRoom_qinv {st : Server} (h : QInv st) (roomId : String) :
    QInv (adminDeleteRoom st roomId) := by
  unfold adminDeleteRoom
  split
  · exact h.delRoom roomId
  · exact h

theorem adminKickPlayer_qinv {st : Server} (h : QInv st)
    (roomId n : String) : QInv (adminKickPlayer st roomId n) := by
  unfold adminKickPlayer
  cases hr : st.getRoom roomId with
  | none => exact h
  | some room =>
    try dsimp only
    split
    · exact removePlayerFromRoom_qinv h roomId n
    · exact h

theorem adminTogglePermanent_qinv {st : Server} (h : QInv st)
    (roomId : String) : QInv (adminTogglePermanent st roomId) := by
  unfold adminTogglePermanent
  cases hr : st.getRoom roomId with
  | none => exact h
  | some room =>
    exact h.setRoom roomId _ (by simpa [qNames] using h.get hr)

theorem adminCacheAdd_qinv {st : Server} (h : QInv st) (a : Str) :
    QInv (adminCacheAdd st a) := by
  simp only [adminCacheAdd]
  split
  · exact h.of_rooms_eq rfl
  · exact h

theorem adminCacheRemove_qinv {st : Server} (h : QInv st) (a : Str) :
    QInv (adminCacheRemove st a) := by
  simp only [adminCacheRemove]
  split
  · exact h.of_rooms_eq rfl
  · exact h

/-- Every single reaction preserves the queue-uniqueness invariant. -/
theorem step_qinv {st : Server} (h : QInv st) (e : Event) :
    QInv (step st e) := by
  cases e with
  | createRoom r n => exact createRoom_qinv h r n
  | joinRoom r n =>
    simp only [step]
    split
    · exact joinRoom_qinv h r n
    · exact h
  | reconnect r n => exact reconnectPlayer_qinv h r n
  | submitAnswer r n a => exact handlePlayerInput_qinv h r n a
  | withdrawAnswer r n => exact withdrawAnswer_qinv h r n
  | submitVote r n v => exact handlePlayerVote_qinv h r n v
  | chooseNewChar r n c => exact handleCharChoice_qinv h r n c
  | disconnect r n g => exact handlePlayerDisconnect_qinv h r n g
  | fireVoteTimer r n => exact fireVoteTimer_qinv h r n
  | fireChoiceTimer r a => exact fireChoiceTimer_qinv h r a
  | fireReconnectTimer r n => exact fireReconnectTimer_qinv h r n
  | adminDeleteRoom r => exact adminDeleteRoom_qinv h r
  | adminKickPlayer r n => exact adminKickPlayer_qinv h r n
  | adminTogglePermanent r => exact adminTogglePermanent_qinv h r
  | adminCacheAdd a => exact adminCacheAdd_qinv h a
  | adminCacheRemove a => exact adminCacheRemove_qinv h a
  | advanceTime d => exact h.of_rooms_eq rfl

theorem run_qinv (evs : List Event) : ∀ st : Server, QInv st →
    QInv (run st evs) := by
  induction evs with
  | nil => intro st h; exact h
  | cons e rest ih =>
    intro st h
    exact ih (step st e) (step_qinv h e)

/-- C8: in every state reachable from process start, every room's
validation queue holds at most one entry per nickname: intake rejects a
nickname with a queued entry, and every other operation only keeps,
restricts or empties the queue. -/
theorem c8_queue_unique (evs : List Event) : QInv (run init evs) :=
  run_qinv evs init (fun _ _ hr => Option.noConfusion hr)

/-- Event sequence for the C5 counterexample: a permanent room, a vote
waiting on voter "B", then an ungraceful disconnect of "B". -/
def c5Events : List Event :=
  [.createRoom "R" "A", .joinRoom "R" "B", .adminTogglePermanent "R",
   .submitAnswer "R" "A" ['月', '一'], .disconnect "R" "B" false]

/-- C5 counterexample: after an ungraceful disconnect of the un-voted
eligible voter "B" in a permanent room, the vote is still active, "B" is
still recorded as an eligible voter who has not voted, and only the
pending per-voter timer can resolve it — the disconnect did not
auto-record the vote, refuting the "graceful or not, permanent or not"
universal. -/
theorem c5_counterexample :
    (roomVote (run init c5Events) "R").isSome = true ∧
    ((roomVote (run init c5Events) "R").map
      (fun cv => cv.hasVoted "B")).getD true = false ∧
    ((roomVote (run init c5Events) "R").map
      (fun cv => memb "B" cv.voters)).getD false = true ∧
    (run init c5Events).timerScheduled (.vote "R" "B") = true ∧
    (((run init c5Events).getRoom "R").map Room.isPermanent).getD false
      = true := by
  decide

/-- The number of pending per-voter vote timers for a nickname. -/
def voteTimerCount (st : Server) (roomId n : String) : Nat :=
  (st.scheduled.filter
    (fun e => decide (e.1 = TimerId.vote roomId n))).length

/-- Overwrite-or-append on a missing key appends. -/
theorem length_aset_of_none {α : Type} (l : List (String × α)) (k : String)
    (v : α) (h : alookup l k = none) : (aset l k v).length = l.length + 1 := by
  induction l with
  | nil => rfl
  | cons p t ih =>
    obtain ⟨k2, v2⟩ := p
    by_cases he : k2 = k
    · simp [alookup, he] at h
    · simp [alookup, he] at h
      simp [aset, he, ih h]

/-- Erasing through an appended non-matching element does not change the
matching filter. -/
theorem filter_eraseP_append_single {α : Type} (q : α → Bool) (l : List α)
    (x : α) (hx : q x = false) :
    ((l ++ [x]).eraseP q).filter q = (l.eraseP q).filter q := by
  induction l with
  | nil => simp [List.eraseP_cons, hx, List.filter_cons]
  | cons a t ih =>
    by_cases ha : q a = true
    · simp [List.eraseP_cons, ha, List.filter_cons, List.filter_append, hx]
    · simp [List.eraseP_cons, ha, List.filter_cons, ih]

/-- What the auto-vote block does for an eligible un-voted voter whose
recorded vote does not conclude the session, when the room still exists:
the captured session gains a `'valid'` vote for the nickname and the
runtime timer queue loses the first matching per-voter timer. -/
theorem disconnectVoteBlock_records (stI : Server) (roomId nickname : String)
    (cv : VotingSession)
    (hex : (stI.getRoom roomId).isSome = true)
    (hel : memb nickname cv.voters = true)
    (hnv : cv.hasVoted nickname = false)
    (hnc : ¬((aset cv.votes nickname "valid").length ≥ cv.voters.length)) :
    (∃ room2,
      (disconnectVoteBlock stI roomId nickname (some cv)).getRoom roomId =
        some room2 ∧
      room2.currentVote = some {cv with
        votes := aset cv.votes nickname "valid",
        timeouts := cv.timeouts.filter (fun x => decide (x ≠ nickname))} ∧
      (∀ cv2, room2.currentVote = some cv2 →
        cv2.hasVoted nickname = true)) ∧
    (disconnectVoteBlock stI roomId nickname (some cv)).scheduled =
      stI.scheduled.eraseP
        (fun e => decide (e.1 = TimerId.vote roomId nickname)) := by
  unfold disconnectVoteBlock
  try dsimp only
  rw [if_pos (show memb nickname cv.voters = true ∧
    cv.hasVoted nickname = false from ⟨hel, hnv⟩), if_neg hnc]
  cases hmid : (stI.clearTimer
      (TimerId.vote roomId nickname)).getRoom roomId with
  | none =>
    rw [clearTimer_getRoom] at hmid
    rw [hmid] at hex
    exact Bool.noConfusion hex
  | some rI =>
    simp only [hmid]
    constructor
    · refine exists_getRoom_setRoom _ _ _
        (fun r2 => r2.currentVote = some {cv with
          votes := aset cv.votes nickname "valid",
          timeouts := cv.timeouts.filter
            (fun x => decide (x ≠ nickname))} ∧
          (∀ cv2, r2.currentVote = some cv2 →
            cv2.hasVoted nickname = true)) ⟨by simp, ?_⟩
      intro cv2 h2
      simp only [pushMsg_currentVote] at h2
      cases h2
      simp [VotingSession.hasVoted, alookup_aset, truthy]
    · simp

/-- No player record under this nickname field is online. -/
def noOnlineNamed (ps : List (String × Player)) (n : String) : Prop :=
  ∀ p, p ∈ ps.map Prod.snd → p.nickname = n → p.online = false

/-- Where a value of an overwrite-or-append map comes from, under unique
keys: either it is the written value, or an entry under another key. -/
theorem mem_values_aset {α : Type} (l : List (String × α)) (k : String)
    (v : α) (hknd : (l.map Prod.fst).Nodup) (p : α)
    (hp : p ∈ (aset l k v).map Prod.snd) :
    p = v ∨ ∃ k2, (k2, p) ∈ l ∧ k2 ≠ k := by
  induction l with
  | nil =>
    simp [aset] at hp
    exact Or.inl hp
  | cons e t ih =>
    obtain ⟨k1, v1⟩ := e
    simp only [List.map_cons, List.nodup_cons] at hknd
    by_cases he : k1 = k
    · rw [show aset ((k1, v1) :: t) k v = (k, v) :: t from by
        simp [aset, he]] at hp
      simp only [List.map_cons, List.mem_cons] at hp
      rcases hp with h1 | h2
      · exact Or.inl h1
      · rw [List.mem_map] at h2
        obtain ⟨⟨k2, p2⟩, hmem, hpe⟩ := h2
        dsimp at hpe
        subst hpe
        refine Or.inr ⟨k2, List.mem_cons.mpr (Or.inr hmem), ?_⟩
        intro hk2
        subst hk2
        subst he
        exact hknd.1 (List.mem_map.mpr ⟨(k1, p2), hmem, rfl⟩)
    · rw [show aset ((k1, v1) :: t) k v = (k1, v1) :: aset t k v from by
        simp [aset, he]] at hp
      simp only [List.map_cons, List.mem_cons] at hp
      rcases hp with h1 | h2
      · exact Or.inr ⟨k1, List.mem_cons.mpr (Or.inl (by rw [h1])), he⟩
      · rcases ih hknd.2 h2 with h3 | ⟨k2, hm, hne⟩
        · exact Or.inl h3
        · exact Or.inr ⟨k2, List.mem_cons.mpr (Or.inr hm), hne⟩

/-- Values surviving a key deletion come from entries under other keys. -/
theorem mem_values_aerase {α : Type} (l : List (String × α)) (k : String)
    (p : α) (hp : p ∈ (aerase l k).map Prod.snd) :
    ∃ k2, (k2, p) ∈ l ∧ k2 ≠ k := by
  unfold aerase at hp
  rw [List.mem_map] at hp
  obtain ⟨⟨k2, p2⟩, hmem, hpe⟩ := hp
  rw [List.mem_filter] at hmem
  dsimp at hpe
  subst hpe
  exact ⟨k2, hmem.1, by simpa using hmem.2⟩

/-- A nickname with no online record is never snapshotted as a voter. -/
theorem not_mem_eligibleVoters (r : Room) (sub : Submission) (n : String)
    (h : noOnlineNamed r.players n) : n ∉ eligibleVoters r sub := by
  intro hmem
  unfold eligibleVoters at hmem
  rw [List.mem_map] at hmem
  obtain ⟨p, hp, hpn⟩ := hmem
  rw [List.mem_filter] at hp
  obtain ⟨hp2, _⟩ := hp
  rw [List.mem_filter] at hp2
  obtain ⟨hp3, hon⟩ := hp2
  have hoff := h p hp3 hpn
  rw [hoff] at hon
  exact Bool.noConfusion hon

theorem count_le_of_sublist {α : Type} (p : α → Bool) {l l2 : List α}
    (h : List.Sublist l l2) : (l.filter p).length ≤ (l2.filter p).length :=
  (h.filter p).length_le

theorem clearVoteTimers_scheduled_sublist (roomId : String)
    (ns : List String) : ∀ st : Server,
    List.Sublist (st.clearVoteTimers roomId ns).scheduled st.scheduled := by
  induction ns with
  | nil => intro st; exact List.Sublist.refl _
  | cons m t ih =>
    intro st
    rw [show st.clearVoteTimers roomId (m :: t) =
      (st.clearTimer (.vote roomId m)).clearVoteTimers roomId t from rfl]
    refine (ih _).trans ?_
    rw [clearTimer_scheduled]
    exact List.eraseP_sublist _

/-- Appending only non-matching elements does not change a filter. -/
theorem filter_append_false {α : Type} (p : α → Bool) (l xs : List α)
    (h : ∀ x ∈ xs, p x = false) : (l ++ xs).filter p = l.filter p := by
  have hnil : xs.filter p = [] := by
    rw [List.filter_eq_nil_iff]
    intro a ha
    rw [h a ha]
    exact Bool.false_ne_true
  rw [List.filter_append, hnil, List.append_nil]

/-- Accepting an answer schedules only a choice timer: the per-voter vote
timer count is unchanged. -/
theorem handleCorrectAnswer_voteCount (st : Server) (roomId : String)
    (sub : Submission) (rid n : String) :
    voteTimerCount (handleCorrectAnswer st roomId sub) rid n =
      voteTimerCount st rid n := by
  unfold handleCorrectAnswer voteTimerCount
  cases hr : st.getRoom roomId with
  | none => rfl
  | some room =>
    dsimp only
    cases hw : alookup room.players sub.nickname with
    | none => simp
    | some w =>
      dsimp only
      simp only [scheduleTimer_scheduled, setRoom_scheduled]
      try dsimp only
      rw [filter_append_false]
      intro x hx
      simp only [List.mem_singleton] at hx
      subst hx
      simp

/-- Starting a vote schedules timers only for snapshotted (online)
voters: a nickname with no online record gains no vote timer. -/
theorem startPlayerVote_voteCount_le (st : Server) (roomId : String)
    (sub : Submission) (n : String)
    (hno : ∀ r, st.getRoom roomId = some r → noOnlineNamed r.players n) :
    voteTimerCount (startPlayerVote st roomId sub) roomId n ≤
      voteTimerCount st roomId n := by
  unfold startPlayerVote voteTimerCount
  cases hr : st.getRoom roomId with
  | none => exact le_refl _
  | some room =>
    try dsimp only
    simp only [setRoom_scheduled]
    try dsimp only
    rw [filter_append_false _ _ _ (fun x hx => by
      rw [List.mem_map] at hx
      obtain ⟨m, hm, he⟩ := hx
      have hne : m ≠ n := by
        intro hmn
        subst hmn
        exact not_mem_eligibleVoters room sub m (hno room hr) hm
      rw [← he]
      simp [hne])]

theorem processValidationQueue_voteCount_le (st : Server) (roomId n : String)
    (hno : ∀ r, st.getRoom roomId = some r → noOnlineNamed r.players n) :
    voteTimerCount (processValidationQueue st roomId) roomId n ≤
      voteTimerCount st roomId n := by
  unfold processValidationQueue
  cases hr : st.getRoom roomId with
  | none => exact le_refl _
  | some room =>
    try dsimp only
    split
    · exact le_refl _
    · cases hq : room.validationQueue with
      | nil => exact le_refl _
      | cons sub rest =>
        try dsimp only
        split
        · rw [handleCorrectAnswer_voteCount]
          simp [voteTimerCount]
        · refine le_trans (startPlayerVote_voteCount_le _ _ _ _ ?_)
            (by simp [voteTimerCount])
          intro r hr2
          simp only [getRoom_setRoom, if_true] at hr2
          cases hr2
          intro p hp hpn
          exact hno room hr p (by simpa using hp) hpn

theorem handleVoteEnd_voteCount_le (st : Server) (roomId n : String)
    (hno : ∀ r, st.getRoom roomId = some r → noOnlineNamed r.players n) :
    voteTimerCount (handleVoteEnd st roomId) roomId n ≤
      voteTimerCount st roomId n := by
  unfold handleVoteEnd
  cases hr : st.getRoom roomId with
  | none => exact le_refl _
  | some room =>
    try dsimp only
    cases hv : room.currentVote with
    | none => exact le_refl _
    | some cv0 =>
      try dsimp only
      have hsub : voteTimerCount (st.clearVoteTimers roomId cv0.timeouts)
          roomId n ≤ voteTimerCount st roomId n := by
        unfold voteTimerCount
        exact count_le_of_sublist _
          (clearVoteTimers_scheduled_sublist roomId cv0.timeouts st)
      split
      · rw [handleCorrectAnswer_voteCount]
        split
        · refine le_trans (le_of_eq ?_) hsub
          simp [voteTimerCount]
        · refine le_trans (le_of_eq ?_) hsub
          simp [voteTimerCount]
      · try dsimp only
        split
        · rw [handleCorrectAnswer_voteCount]
          split
          · refine le_trans (le_of_eq ?_) hsub
            simp [voteTimerCount]
          · refine le_trans (le_of_eq ?_) hsub
            simp [voteTimerCount]
        · refine le_trans (processValidationQueue_voteCount_le _ _ _ ?_)
            (le_trans (le_of_eq (by simp [voteTimerCount])) hsub)
          intro r hr2
          simp only [getRoom_setRoom, if_true] at hr2
          cases hr2
          intro p hp hpn
          exact hno room hr p (by simpa using hp) hpn

/-- Accepting an answer never opens a vote: a room with no active vote
still has none afterwards. -/
theorem handleCorrectAnswer_keeps_none (st : Server) (roomId : String)
    (sub : Submission)
    (h0 : ∀ r, st.getRoom roomId = some r → r.currentVote = none) :
    ∀ r2, (handleCorrectAnswer st roomId sub).getRoom roomId = some r2 →
      r2.currentVote = none := by
  unfold handleCorrectAnswer
  cases hr : st.getRoom roomId with
  | none => exact h0
  | some r0 =>
    have h00 := h0 r0 hr
    try dsimp only
    cases hw : alookup r0.players sub.nickname with
    | none =>
      intro r2 h2
      simp only [getRoom_setRoom, if_true] at h2
      cases h2
      exact h00
    | some w =>
      try dsimp only
      intro r2 h2
      simp only [scheduleTimer_getRoom] at h2
      have h2b : ((st.setRoom roomId
          {r0 with
            players := aset r0.players sub.nickname
              {w with score := w.score + 1},
            validationQueue := [],
            usedSentences :=
              if (r0.usedSentences ++ [normalizeSentence sub.answer]).length
                  > 50
              then (r0.usedSentences ++ [normalizeSentence sub.answer]).tail
              else r0.usedSentences ++
                [normalizeSentence sub.answer]}).getRoom roomId) = some r2 := h2
      simp only [getRoom_setRoom, if_true] at h2b
      cases h2b
      exact h00

/-- Queue processing only ever opens a vote on a member of the queue it
was given. -/
theorem processValidationQueue_newVote (st : Server) (roomId : String)
    (q : List Submission)
    (h0 : ∀ r, st.getRoom roomId = some r →
      r.currentVote = none ∧ r.validationQueue = q) :
    ∀ r2 cv2, (processValidationQueue st roomId).getRoom roomId = some r2 →
      r2.currentVote = some cv2 → cv2.submission ∈ q := by
  unfold processValidationQueue
  cases hr : st.getRoom roomId with
  | none =>
    intro r2 cv2 h2 h3
    rw [hr] at h2
    exact Option.noConfusion h2
  | some r0 =>
    obtain ⟨h0a, h0b⟩ := h0 r0 hr
    try dsimp only
    split
    · next hcond =>
      rw [h0a] at hcond
      exact Bool.noConfusion hcond
    · cases hq2 : r0.validationQueue with
      | nil =>
        intro r2 cv2 h2 h3
        rw [hr] at h2
        cases h2
        rw [h0a] at h3
        exact Option.noConfusion h3
      | cons sub rest =>
        try dsimp only
        split
        · intro r2 cv2 h2 h3
          have hkeep := handleCorrectAnswer_keeps_none _ roomId sub ?_ r2 h2
          · rw [hkeep] at h3
            exact Option.noConfusion h3
          · intro r hgr
            simp only [getRoom_setRoom, if_true] at hgr
            cases hgr
            simpa using h0a
        · intro r2 cv2 h2 h3
          unfold startPlayerVote at h2
          simp only [getRoom_setRoom, if_true] at h2
          try dsimp only at h2
          try simp only [getRoom_setRoom, if_true] at h2
          cases h2
          simp only [pushMsg_currentVote] at h3
          try dsimp only at h3
          cases h3
          rw [← h0b, hq2]
          exact List.mem_cons_self sub rest

/-- The membership-guarded cache insert never touches the room registry. -/
theorem getRoom_localCacheGuard (stY : Server) (nk : Str) (k : String) :
    (if memb nk stY.localCache then stY
     else {stY with localCache := stY.localCache ++ [nk]}).getRoom k =
      stY.getRoom k := by
  split
  · rfl
  · rfl

/-- When a vote concludes, any vote active for the room afterwards is on
an entry of the tail of the queue the room held at conclusion time. -/
theorem handleVoteEnd_new_vote (st : Server) (roomId : String)
    (q : List Submission)
    (hinfo : ∀ r, st.getRoom roomId = some r → r.validationQueue = q) :
    ∀ r2 cv2, (handleVoteEnd st roomId).getRoom roomId = some r2 →
      r2.currentVote = some cv2 → cv2.submission ∈ q.tail := by
  unfold handleVoteEnd
  cases hr : st.getRoom roomId with
  | none =>
    intro r2 cv2 h2 h3
    rw [hr] at h2
    exact Option.noConfusion h2
  | some room =>
    have hq0 := hinfo room hr
    try dsimp only
    cases hv : room.currentVote with
    | none =>
      intro r2 cv2 h2 h3
      rw [hr] at h2
      cases h2
      rw [hv] at h3
      exact Option.noConfusion h3
    | some cv0 =>
      try dsimp only
      split
      · intro r2 cv2 h2 h3
        have hkeep := handleCorrectAnswer_keeps_none _ roomId cv0.submission
          ?_ r2 h2
        · rw [hkeep] at h3
          exact Option.noConfusion h3
        · intro r hgr
          rw [getRoom_localCacheGuard] at hgr
          simp only [getRoom_setRoom, if_true] at hgr
          cases hgr
          simp
      · try dsimp only
        split
        · intro r2 cv2 h2 h3
          have hkeep := handleCorrectAnswer_keeps_none _ roomId cv0.submission
            ?_ r2 h2
          · rw [hkeep] at h3
            exact Option.noConfusion h3
          · intro r hgr
            rw [getRoom_localCacheGuard] at hgr
            simp only [getRoom_setRoom, if_true] at hgr
            cases hgr
            simp
        · intro r2 cv2 h2 h3
          have hmem := processValidationQueue_newVote _ roomId
            room.validationQueue.tail ?_ r2 cv2 h2 h3
          · rw [← hq0]
            exact hmem
          · intro r hgr
            simp only [getRoom_setRoom, if_true] at hgr
            cases hgr
            constructor
            · simp
            · simp

/-- Under unique keys, a listed entry is what lookup finds. -/
theorem alookup_of_mem {α : Type} {l : List (String × α)} {k : String}
    {v : α} (hknd : (l.map Prod.fst).Nodup) (hm : (k, v) ∈ l) :
    alookup l k = some v := by
  induction l with
  | nil => simp at hm
  | cons e t ih =>
    obtain ⟨k1, v1⟩ := e
    simp only [List.map_cons, List.nodup_cons] at hknd
    rcases List.mem_cons.mp hm with h1 | h2
    · cases h1
      simp [alookup]
    · have hk1 : k1 ≠ k := by
        intro he
        subst he
        exact hknd.1 (List.mem_map.mpr ⟨(k1, v), h2, rfl⟩)
      simp only [alookup, hk1, if_false]
      exact ih hknd.2 h2

/-- What the auto-vote block does for an eligible un-voted voter: when
the recorded vote does not fill the count, the surviving room carries
exactly the recorded session; when it fills the count, the session is
resolved and any later vote is on a tail entry of the room's queue; in
every case the first pending matching per-voter timer is consumed. -/
theorem disconnectVoteBlock_resolve (stI : Server) (roomId nickname : String)
    (cv : VotingSession) (q : List Submission)
    (hel : memb nickname cv.voters = true)
    (hnv : cv.hasVoted nickname = false)
    (hinfo : ∀ r, stI.getRoom roomId = some r →
      r.validationQueue = q ∧ noOnlineNamed r.players nickname) :
    ((aset cv.votes nickname "valid").length < cv.voters.length →
      ∀ r2, (disconnectVoteBlock stI roomId nickname (some cv)).getRoom
          roomId = some r2 →
        r2.currentVote = some {cv with
          votes := aset cv.votes nickname "valid",
          timeouts := cv.timeouts.filter (fun x => decide (x ≠ nickname))}) ∧
    ((aset cv.votes nickname "valid").length ≥ cv.voters.length →
      ∀ r2 cv2, (disconnectVoteBlock stI roomId nickname (some cv)).getRoom
          roomId = some r2 →
        r2.currentVote = some cv2 → cv2.submission ∈ q.tail) ∧
    (stI.scheduled.any
        (fun e => decide (e.1 = TimerId.vote roomId nickname)) = true →
      voteTimerCount (disconnectVoteBlock stI roomId nickname (some cv))
          roomId nickname <
        (stI.scheduled.filter
          (fun e => decide (e.1 = TimerId.vote roomId nickname))).length) := by
  unfold disconnectVoteBlock
  try dsimp only
  rw [if_pos (show memb nickname cv.voters = true ∧
    cv.hasVoted nickname = false from ⟨hel, hnv⟩)]
  cases hmid : (stI.clearTimer
      (TimerId.vote roomId nickname)).getRoom roomId with
  | none =>
    try simp only [hmid]
    try dsimp only
    refine ⟨?_, ?_, ?_⟩
    · intro hlt r2 h2
      rw [if_neg (by omega : ¬((aset cv.votes nickname "valid").length ≥
        cv.voters.length))] at h2
      rw [hmid] at h2
      exact Option.noConfusion h2
    · intro hge r2 cv2 h2 h3
      rw [if_pos hge] at h2
      unfold handleVoteEnd at h2
      rw [hmid] at h2
      try dsimp only at h2
      rw [hmid] at h2
      exact Option.noConfusion h2
    · intro hany
      by_cases hconc : (aset cv.votes nickname "valid").length ≥
        cv.voters.length
      · rw [if_pos hconc]
        have heq : handleVoteEnd
            (stI.clearTimer (TimerId.vote roomId nickname)) roomId =
            stI.clearTimer (TimerId.vote roomId nickname) := by
          unfold handleVoteEnd
          rw [hmid]
        rw [heq]
        unfold voteTimerCount
        simp only [clearTimer_scheduled]
        exact length_filter_eraseP_lt _ _ hany
      · rw [if_neg hconc]
        unfold voteTimerCount
        simp only [clearTimer_scheduled]
        exact length_filter_eraseP_lt _ _ hany
  | some rI =>
    have hmid2 : stI.getRoom roomId = some rI := by
      rw [← clearTimer_getRoom stI (TimerId.vote roomId nickname)]
      exact hmid
    obtain ⟨hqI, hnoI⟩ := hinfo rI hmid2
    simp only [hmid]
    try dsimp only
    refine ⟨?_, ?_, ?_⟩
    · intro hlt r2 h2
      rw [if_neg (by omega : ¬((aset cv.votes nickname "valid").length ≥
        cv.voters.length))] at h2
      simp only [getRoom_setRoom, if_true] at h2
      cases h2
      simp
    · intro hge r2 cv2 h2 h3
      rw [if_pos hge] at h2
      refine handleVoteEnd_new_vote _ roomId q ?_ r2 cv2 h2 h3
      intro r hgr
      simp only [getRoom_setRoom, if_true] at hgr
      cases hgr
      simpa using hqI
    · intro hany
      by_cases hconc : (aset cv.votes nickname "valid").length ≥
        cv.voters.length
      · rw [if_pos hconc]
        refine lt_of_le_of_lt (handleVoteEnd_voteCount_le _ _ _ ?_) ?_
        · intro r hgr
          simp only [getRoom_setRoom, if_true] at hgr
          cases hgr
          intro p hp hpn
          exact hnoI p (by simpa using hp) hpn
        · unfold voteTimerCount
          simp only [setRoom_scheduled, clearTimer_scheduled]
          exact length_filter_eraseP_lt _ _ hany
      · rw [if_neg hconc]
        unfold voteTimerCount
        simp only [setRoom_scheduled, clearTimer_scheduled]
        exact length_filter_eraseP_lt _ _ hany

/-- The full C5 post-state description relative to the state the
auto-vote block runs on: the disconnected voter is recorded (and the
same-submitter session, if still active, carries the record), a full
count concludes the session (any later vote is on another submitter's
queue entry), and the pending per-voter timer is consumed. -/
theorem autoVoteSpec_of_resolve (stI st0 : Server) (roomId nickname : String)
    (cv : VotingSession) (q : List Submission)
    (hq : q.head? = some cv.submission)
    (hnd : (q.map Submission.nickname).Nodup)
    (hel : memb nickname cv.voters = true)
    (hnv : cv.hasVoted nickname = false)
    (hinfo : ∀ r, stI.getRoom roomId = some r →
      r.validationQueue = q ∧ noOnlineNamed r.players nickname)
    (hany : st0.timerScheduled (TimerId.vote roomId nickname) = true →
      stI.scheduled.any
        (fun e => decide (e.1 = TimerId.vote roomId nickname)) = true)
    (hcnt : (stI.scheduled.filter
        (fun e => decide (e.1 = TimerId.vote roomId nickname))).length ≤
      voteTimerCount st0 roomId nickname) :
    (∀ r2 cv2,
      (disconnectVoteBlock stI roomId nickname (some cv)).getRoom roomId =
        some r2 →
      r2.currentVote = some cv2 →
      cv2.submission.nickname = cv.submission.nickname →
      cv2 = {cv with
        votes := aset cv.votes nickname "valid",
        timeouts := cv.timeouts.filter (fun x => decide (x ≠ nickname))} ∧
      cv2.hasVoted nickname = true) ∧
    ((aset cv.votes nickname "valid").length < cv.voters.length →
      ∀ r2, (disconnectVoteBlock stI roomId nickname (some cv)).getRoom
          roomId = some r2 →
        r2.currentVote = some {cv with
          votes := aset cv.votes nickname "valid",
          timeouts := cv.timeouts.filter (fun x => decide (x ≠ nickname))}) ∧
    ((aset cv.votes nickname "valid").length ≥ cv.voters.length →
      ∀ r2 cv2, (disconnectVoteBlock stI roomId nickname (some cv)).getRoom
          roomId = some r2 →
        r2.currentVote = some cv2 →
        cv2.submission.nickname ≠ cv.submission.nickname) ∧
    (st0.timerScheduled (TimerId.vote roomId nickname) = true →
      voteTimerCount (disconnectVoteBlock stI roomId nickname (some cv))
        roomId nickname < voteTimerCount st0 roomId nickname) := by
  obtain ⟨hA, hB, hC⟩ :=
    disconnectVoteBlock_resolve stI roomId nickname cv q hel hnv hinfo
  have hcDiff : (aset cv.votes nickname "valid").length ≥ cv.voters.length →
      ∀ r2 cv2, (disconnectVoteBlock stI roomId nickname (some cv)).getRoom
          roomId = some r2 →
        r2.currentVote = some cv2 →
        cv2.submission.nickname ≠ cv.submission.nickname := by
    intro hge r2 cv2 h2 h3 heq
    have hmem := hB hge r2 cv2 h2 h3
    cases hqq : q with
    | nil =>
      rw [hqq] at hq
      exact Option.noConfusion hq
    | cons s0 restq =>
      rw [hqq] at hq hmem hnd
      simp only [List.head?_cons, Option.some.injEq] at hq
      simp only [List.tail_cons] at hmem
      simp only [List.map_cons, List.nodup_cons] at hnd
      apply hnd.1
      rw [List.mem_map]
      refine ⟨cv2.submission, hmem, ?_⟩
      rw [heq, ← hq]
  refine ⟨?_, hA, hcDiff, ?_⟩
  · intro r2 cv2 h2 h3 heq
    by_cases hconc : (aset cv.votes nickname "valid").length ≥ cv.voters.length
    · exact absurd heq (hcDiff hconc r2 cv2 h2 h3)
    · have hcv2 := hA (by omega) r2 h2
      rw [hcv2] at h3
      cases h3
      exact ⟨rfl, by simp [VotingSession.hasVoted, alookup_aset, truthy]⟩
  · intro ht
    exact lt_of_lt_of_le (hC (hany ht)) hcnt

/-- Behaviour of `handlePlayerDisconnect` claimed by the amended C5,
covering every outcome: any still-active vote on the same submission
carries the auto-recorded `'valid'` vote; when the recorded vote does not
fill the count, the surviving room holds exactly the recorded session;
when it fills the count, the session concludes (whatever vote is active
afterwards is another submitter's); and a pending per-voter timer is
cancelled. -/
def DisconnectAutoVoteSpec (st : Server) (roomId nickname : String)
    (graceful : Bool) (cv : VotingSession) : Prop :=
  (∀ r2 cv2,
    (handlePlayerDisconnect st roomId nickname graceful).getRoom roomId =
      some r2 →
    r2.currentVote = some cv2 →
    cv2.submission.nickname = cv.submission.nickname →
    cv2 = {cv with
      votes := aset cv.votes nickname "valid",
      timeouts := cv.timeouts.filter (fun x => decide (x ≠ nickname))} ∧
    cv2.hasVoted nickname = true) ∧
  ((aset cv.votes nickname "valid").length < cv.voters.length →
    ∀ r2, (handlePlayerDisconnect st roomId nickname graceful).getRoom
        roomId = some r2 →
      r2.currentVote = some {cv with
        votes := aset cv.votes nickname "valid",
        timeouts := cv.timeouts.filter (fun x => decide (x ≠ nickname))}) ∧
  ((aset cv.votes nickname "valid").length ≥ cv.voters.length →
    ∀ r2 cv2, (handlePlayerDisconnect st roomId nickname graceful).getRoom
        roomId = some r2 →
      r2.currentVote = some cv2 →
      cv2.submission.nickname ≠ cv.submission.nickname) ∧
  (st.timerScheduled (TimerId.vote roomId nickname) = true →
    voteTimerCount (handlePlayerDisconnect st roomId nickname graceful)
      roomId nickname < voteTimerCount st roomId nickname)

/-- C5 (amended): outside the ungraceful-disconnect-in-permanent-room
early return, disconnecting an eligible un-voted voter auto-records a
`'valid'` vote, cancels a pending per-voter timer, and concludes the
vote when the recorded count fills the voter set — the vote never stays
waiting on that voter.  The side conditions are reachable-state
invariants: the queue head is the submission under vote, queued
nicknames are unique, and the roster maps each nickname key to a record
carrying that nickname. -/
theorem c5_disconnect_autovote (st : Server) (roomId nickname : String)
    (graceful : Bool) (room : Room) (cv : VotingSession) (player : Player)
    (hne : ¬(roomId = "" ∨ nickname = ""))
    (hr : st.getRoom roomId = some room)
    (hp : alookup room.players nickname = some player)
    (hv : room.currentVote = some cv)
    (hel : memb nickname cv.voters = true)
    (hnone : alookup cv.votes nickname = none)
    (hq : room.validationQueue.head? = some cv.submission)
    (hnd : (room.validationQueue.map Submission.nickname).Nodup)
    (hcoh : ∀ k p, alookup room.players k = some p → p.nickname = k)
    (hknd : (room.players.map Prod.fst).Nodup)
    (hcase : graceful = true ∨ room.isPermanent = false) :
    DisconnectAutoVoteSpec st roomId nickname graceful cv := by
  have hnv : cv.hasVoted nickname = false := by
    unfold VotingSession.hasVoted
    rw [hnone]
  unfold DisconnectAutoVoteSpec handlePlayerDisconnect
  rw [if_neg hne, hr]
  try dsimp only
  rw [hp]
  try dsimp only
  cases graceful with
  | true =>
    split
    · next hcond =>
      try dsimp only
      simp only [pushMsg_currentVote]
      try dsimp only
      rw [hv]
      refine autoVoteSpec_of_resolve _ st roomId nickname cv
        room.validationQueue hq hnd hel hnv ?_ ?_ ?_
      · intro r hgr
        simp only [getRoom_setRoom, if_true] at hgr
        cases hgr
        refine ⟨by simp, ?_⟩
        intro p hp2 hpn
        simp only [pushMsg_players] at hp2
        try dsimp only at hp2
        rcases mem_values_aset room.players nickname _ hknd p hp2 with
          h1 | ⟨k2, hm, hne2⟩
        · rw [h1]
        · exact absurd ((hcoh k2 p (alookup_of_mem hknd hm)).symm.trans hpn)
            hne2
      · intro ht
        unfold Server.timerScheduled at ht
        simpa using ht
      · simp [voteTimerCount]
    · next hcond =>
      have hpm : room.isPermanent = false := by
        cases hpmv : room.isPermanent
        · rfl
        · exact absurd ⟨rfl, hpmv⟩ hcond
      split
      · try dsimp only
        rw [hv]
        unfold removePlayerFromRoom
        simp only [getRoom_setRoom, if_true]
        try dsimp only
        split
        · try dsimp only
          split
          · next hdes =>
            refine autoVoteSpec_of_resolve _ st roomId nickname cv
              room.validationQueue hq hnd hel hnv ?_ ?_ ?_
            · intro r hgr
              simp only [getRoom_delRoom, if_true] at hgr
              exact Option.noConfusion hgr
            · intro ht
              unfold Server.timerScheduled at ht
              simpa using ht
            · simp [voteTimerCount]
          · try dsimp only
            refine autoVoteSpec_of_resolve _ st roomId nickname cv
              room.validationQueue hq hnd hel hnv ?_ ?_ ?_
            · intro r hgr
              simp only [getRoom_mk, setRoom_rooms, alookup_aset,
                if_true] at hgr
              cases hgr
              refine ⟨by simp, ?_⟩
              intro p hp2 hpn
              try dsimp only at hp2
              simp only [pushMsg_players] at hp2
              obtain ⟨k2, hm, hne2⟩ :=
                mem_values_aerase room.players nickname p hp2
              exact absurd ((hcoh k2 p (alookup_of_mem hknd hm)).symm.trans
                hpn) hne2
            · intro ht
              unfold Server.timerScheduled at ht
              simpa using ht
            · simp [voteTimerCount]
        · next hk2 =>
          exfalso
          apply hk2
          simp only [pushMsg_players]
          unfold hasKey
          rw [hp]
          rfl
      · next hg2 => exact absurd rfl hg2
  | false =>
    have hpm : room.isPermanent = false := by
      rcases hcase with h1 | h2
      · exact Bool.noConfusion h1
      · exact h2
    split
    · next hcond => exact Bool.noConfusion hcond.1
    · split
      · next hg2 => exact Bool.noConfusion hg2
      · try dsimp only
        split
        · next hperm2 => simp [hpm] at hperm2
        · try dsimp only
          simp only [pushMsg_currentVote]
          try dsimp only
          rw [hv]
          refine autoVoteSpec_of_resolve _ st roomId nickname cv
            room.validationQueue hq hnd hel hnv ?_ ?_ ?_
          · intro r hgr
            simp only [scheduleTimer_getRoom, getRoom_mk, setRoom_rooms,
              alookup_aset, if_true] at hgr
            cases hgr
            refine ⟨by simp, ?_⟩
            intro p hp2 hpn
            simp only [pushMsg_players] at hp2
            try dsimp only at hp2
            rcases mem_values_aset room.players nickname _ hknd p hp2 with
              h1 | ⟨k2, hm, hne2⟩
            · rw [h1]
            · exact absurd ((hcoh k2 p (alookup_of_mem hknd hm)).symm.trans
                hpn) hne2
          · intro ht
            unfold Server.timerScheduled at ht
            simp only [scheduleTimer_scheduled]
            try dsimp only
            rw [List.any_append]
            simp [ht]
          · unfold voteTimerCount
            simp only [scheduleTimer_scheduled]
            try dsimp only
            rw [filter_append_false _ _ _ (by
              intro x hx
              simp only [List.mem_singleton] at hx
              subst hx
              simp)]
            simp only [setRoom_scheduled]
            exact le_refl _

def c5WPlayer : Player := ⟨"B", 0, true, none⟩

def c5WVote : VotingSession :=
  ⟨⟨['月', '一'], "A"⟩, [], ["B", "C"], ["B", "C"], 15000⟩

def c5WRoom : Room :=
  ⟨"R", "R",
   [("A", ⟨"A", 0, true, none⟩), ("B", c5WPlayer), ("C", ⟨"C", 0, true, none⟩)],
   true, '月', [], [⟨['月', '一'], "A"⟩], some c5WVote, []⟩

def c5WSt : Server :=
  ⟨[("R", c5WRoom)], [], [], [],
   [(.vote "R" "B", 15000), (.vote "R" "C", 15000)], 0⟩

/-- C5 witness: the amended theorem applied at a concrete input — a
graceful leave of un-voted voter "B" from a permanent room. -/
theorem c5_witness : DisconnectAutoVoteSpec c5WSt "R" "B" true c5WVote :=
  c5_disconnect_autovote c5WSt "R" "B" true c5WRoom c5WVote c5WPlayer
    (by decide) rfl rfl rfl (by decide) rfl rfl (by decide)
    (by
      intro k p h
      simp only [c5WRoom, c5WPlayer, alookup] at h
      split at h
      · next heq =>
        cases h
        rw [← heq]
      · split at h
        · next heq =>
          cases h
          rw [← heq]
        · split at h
          · next heq =>
            cases h
            rw [← heq]
          · exact Option.noConfusion h)
    (by decide) (Or.inl rfl)

end PoetryGame
